import Mathlib

/-! # vocdoni-node: scrutinizer tally engine and census tree

A shallow embedding of `vochain/scrutinizer/vote.go` and
`censustree/gravitontree/trie.go`.

* Go slices are lists; a `uint32` counter is a natural number and `++` on it is
  computed modulo `2^32`.
* A Go function that returns an `error` returns a `Res`; a run-time panic
  (index out of range, nil dereference) is the third outcome `Res.panic`.
* Stateful methods take the state they read and return the state they leave.
* Collaborators whose code is outside the translated files (key-value storage,
  codec, base64/JSON decoding, the vochain state, the graviton state tree) are
  fields of an environment record, so every theorem holds for each of them.
-/

namespace Vocdoni

/-! ## Results, errors -/

/-- Errors returned by the translated functions. `noKey` is the storage error whose
message is `NoKeyStorageError`; `io` is any error produced by a collaborator. -/
inductive Err where
  | noKey
  | io (code : Nat)
  | tooManyQuestions
  | addVoteSkipped (cause : Err)
  | cannotUnmarshalVote (cause : Err)
  | alreadyComputed
  | noResultsYet
  | indexTooSmall
  | dataTooBig
  | indexTooBig
  | valueTooBig
  | rootLength
  | treeNotExist
  | dumpRootNotFound
  | importUnmarshal (cause : Err)
  deriving DecidableEq, Repr

/-- Outcome of a Go call: a value with a nil error, a non-nil error, or a panic. -/
inductive Res (α : Type) where
  | ok (a : α)
  | err (e : Err)
  | panic
  deriving DecidableEq, Repr

/-- The call returned a non-nil error. -/
def Res.isErr {α : Type} : Res α → Bool
  | .err _ => true
  | _ => false

/-- The call returned with a nil error. -/
def Res.isOk {α : Type} : Res α → Bool
  | .ok _ => true
  | _ => false

abbrev Bytes := List Nat

/-! ## Tallies (`ProcessVotes = [][]uint32`) -/

abbrev ProcessVotes := List (List Nat)

/-- Counter `pv[q][o]`, zero outside the shape (used in statements only). -/
def cell (pv : ProcessVotes) (q o : Nat) : Nat := (pv.getD q []).getD o 0

/-- Tally of the shape `MaxQuestions x MaxOptions`. -/
def fullShape (MaxQuestions MaxOptions : Nat) (pv : ProcessVotes) : Prop :=
  pv.length = MaxQuestions ∧ ∀ row ∈ pv, row.length = MaxOptions

instance (MaxQuestions MaxOptions : Nat) (pv : ProcessVotes) :
    Decidable (fullShape MaxQuestions MaxOptions pv) := by
  unfold fullShape; infer_instance

/-- Modelled from the spec: `emptyProcess` (its body is not in the translated files), the
all-zero tally of `MaxQuestions` rows of `MaxOptions` counters. -/
def emptyProcess (MaxQuestions MaxOptions : Nat) : ProcessVotes :=
  List.replicate MaxQuestions (List.replicate MaxOptions 0)

/-- Go indexing `pvv[q][j]`: panics when either index is out of range. -/
def index2 (pvv : ProcessVotes) (q j : Nat) : Res Nat :=
  match pvv[q]? with
  | none => .panic
  | some row =>
    match row[j]? with
    | none => .panic
    | some c => .ok c

/-- Go builtin `copy(dst, src)`: the first `min (len dst) (len src)` elements of `dst`
are overwritten with those of `src`. -/
def goCopy (dst src : List Nat) : List Nat :=
  src.take dst.length ++ dst.drop src.length

/-! ## `pruneVoteResult` (vote.go 191-222) -/

/-- Inner loop of the first phase, `for ; j < MaxOptions; j++ { if pvv[min][j] != 0 { break } }`.
The first argument is the number of iterations left, `MaxOptions - j`; the value is the
final `j`. -/
def pruneScanUp (pvv : ProcessVotes) (min : Nat) : Nat → Nat → Res Nat
  | 0, j => .ok j
  | n + 1, j =>
    match index2 pvv min j with
    | .ok c => if c ≠ 0 then .ok j else pruneScanUp pvv min n (j + 1)
    | .err e => .err e
    | .panic => .panic

/-- First phase, `for ; min >= 0; min-- { ... if j < MaxOptions { break } }`. The argument
is `min + 1`; the value is the final `min`, `-1` when no question owns a vote. -/
def pruneFindMin (MaxOptions : Nat) (pvv : ProcessVotes) : Nat → Res Int
  | 0 => .ok (-1)
  | n + 1 =>
    match pruneScanUp pvv n MaxOptions 0 with
    | .ok j => if j < MaxOptions then .ok (n : Int) else pruneFindMin MaxOptions pvv n
    | .err e => .err e
    | .panic => .panic

/-- Loop `for ; j2 >= 0; j2-- { if pvv[i2][j2] != 0 { break } }`. The argument is
`j2 + 1`; the value is the final `j2`. -/
def pruneScanDown (pvv : ProcessVotes) (i2 : Nat) : Nat → Res Int
  | 0 => .ok (-1)
  | n + 1 =>
    match index2 pvv i2 n with
    | .ok c => if c ≠ 0 then .ok (n : Int) else pruneScanDown pvv i2 n
    | .err e => .err e
    | .panic => .panic

/-- Loop `for i2 := 0; i2 <= i; i2++ { ... pvc[i2] = make([]uint32, j2+1); copy(pvc[i2], pvv[i2]) }`.
The first argument is the number of iterations left, `i + 1 - i2`. -/
def pruneFillRows (MaxOptions : Nat) (pvv : ProcessVotes) :
    Nat → Nat → ProcessVotes → Res ProcessVotes
  | 0, _, pvc => .ok pvc
  | n + 1, i2, pvc =>
    match pruneScanDown pvv i2 MaxOptions with
    | .ok j2 =>
      match pvv[i2]? with
      | none => .panic
      | some src =>
        if i2 < pvc.length then
          pruneFillRows MaxOptions pvv n (i2 + 1)
            (pvc.set i2 (goCopy (List.replicate (j2 + 1).toNat 0) src))
        else .panic
    | .err e => .err e
    | .panic => .panic

/-- Second phase, `for i := 0; i <= min; i++ { pvc = make([][]uint32, i+1); ... }`. The
first argument is the number of iterations left, `min + 1 - i`. -/
def pruneCopyLoop (MaxOptions : Nat) (pvv : ProcessVotes) :
    Nat → Nat → ProcessVotes → Res ProcessVotes
  | 0, _, pvc => .ok pvc
  | n + 1, i, _ =>
    match pruneFillRows MaxOptions pvv (i + 1) 0 (List.replicate (i + 1) []) with
    | .ok pvc => pruneCopyLoop MaxOptions pvv n (i + 1) pvc
    | .err e => .err e
    | .panic => .panic

/-- Function `pruneVoteResult(pv *ProcessVotes)`: the value is the tally left in `*pv`. -/
def pruneVoteResult (MaxQuestions MaxOptions : Nat) (pv : ProcessVotes) : Res ProcessVotes :=
  match pruneFindMin MaxOptions pv MaxQuestions with
  | .ok min => pruneCopyLoop MaxOptions pv (min + 1).toNat 0 []
  | .err e => .err e
  | .panic => .panic


/-! ## Pruning: specification-level helpers -/

/-- Number of leading counters of `row` to keep among its first `n`: one more than the
index of the last non-zero counter, `0` when there is none. -/
def keepLen (row : List Nat) : Nat → Nat
  | 0 => 0
  | n + 1 => if row.getD n 0 ≠ 0 then n + 1 else keepLen row n

/-- Number of leading rows to keep among the first `n`. -/
def keepRows (MaxOptions : Nat) (pv : ProcessVotes) : Nat → Nat
  | 0 => 0
  | n + 1 => if 0 < keepLen (pv.getD n []) MaxOptions then n + 1 else keepRows MaxOptions pv n

/-- A row cut after its last non-zero counter. -/
def pruneRow (MaxOptions : Nat) (row : List Nat) : List Nat :=
  row.take (keepLen row MaxOptions)


/-! ## Vochain types (`vochain/types/process.go`) and the scrutinizer's collaborators -/

/-- Type `types.Vote`: the fields of a vote envelope that the scrutinizer reads. -/
structure Vote where
  ProcessID : String
  VotePackage : String
  deriving DecidableEq, Repr

/-- Type `types.VotePackage`: the chosen option of every question, in question order. -/
structure VotePackage where
  Votes : List Int
  deriving DecidableEq, Repr

/-- Type `CurrentProcessState` (process.go 53-67). -/
inductive CurrentProcessState where
  | Scheduled
  | Active
  | Paused
  | Finished
  | Canceled
  deriving DecidableEq, Repr

/-- Type `Process` (process.go 10-27). -/
structure Process where
  ProcessID : String
  EntityID : String
  Votes : List (String × Vote)
  MkRoot : String
  NumberOfBlocks : Int
  InitBlock : Int
  CurrentState : CurrentProcessState
  EncryptionKeys : List String
  deriving DecidableEq, Repr

/-- The binary codec `s.VochainState.Codec` of tallies. -/
structure Codec where
  MarshalBinaryBare : ProcessVotes → Res Bytes
  UnmarshalBinaryBare : Bytes → Res ProcessVotes

/-- The scrutinizer with everything it calls but does not define: the constants
`MaxQuestions`, `MaxOptions` and the two key prefixes, the base64 and JSON decoders, the
codec, the vochain state (`Process`, `EnvelopeList`, `Envelope`), `isLiveResultsProcess`,
`util.TrimHex`, and for each storage operation the I/O failure (if any) the storage
engine answers with at a given key. -/
structure Scrutinizer where
  MaxQuestions : Nat
  MaxOptions : Nat
  ScrutinizerLiveProcessPrefix : String
  ScrutinizerResultsPrefix : String
  base64Decode : String → Res Bytes
  jsonUnmarshal : Bytes → Res VotePackage
  Codec : Vocdoni.Codec
  Process : String → Res Vocdoni.Process
  isLiveResultsProcess : String → Res Bool
  EnvelopeList : String → Nat → Nat → List String
  Envelope : String → Res Vote
  TrimHex : String → String
  getFault : String → Option Nat
  putFault : String → Option Nat
  delFault : String → Option Nat

/-- Contents of the scrutinizer storage: the value under each key, if any. -/
abbrev Storage := String → Option Bytes

/-- Modelled from the spec: `Storage.Get`, `get(key) -> value|NotFound` of the key-value
store; an absent key answers the error whose message is `NoKeyStorageError`. -/
def Storage.Get (s : Scrutinizer) (st : Storage) (key : String) : Res Bytes :=
  match s.getFault key with
  | some code => .err (.io code)
  | none =>
    match st key with
    | some v => .ok v
    | none => .err .noKey

/-- Modelled from the spec: `Storage.Put`, `put(key, value)` of the key-value store; a
failed write leaves the contents as they were. -/
def Storage.Put (s : Scrutinizer) (st : Storage) (key : String) (value : Bytes) :
    Res Unit × Storage :=
  match s.putFault key with
  | some code => (.err (.io code), st)
  | none => (.ok (), fun k => if k = key then some value else st k)

/-- Modelled from the spec: `Storage.Del`, `delete(key)` of the key-value store; a failed
delete leaves the contents as they were. -/
def Storage.Del (s : Scrutinizer) (st : Storage) (key : String) : Res Unit × Storage :=
  match s.delFault key with
  | some code => (.err (.io code), st)
  | none => (.ok (), fun k => if k = key then none else st k)

/-- Key of the live tally of a process. -/
def liveKey (s : Scrutinizer) (processID : String) : String :=
  s.ScrutinizerLiveProcessPrefix ++ processID

/-- Key of the persisted result of a process. -/
def resultsKey (s : Scrutinizer) (processID : String) : String :=
  s.ScrutinizerResultsPrefix ++ processID

/-! ## `vochain/scrutinizer/vote.go` -/

/-- Function `unmarshalVote` (vote.go 13-23). -/
def unmarshalVote (s : Scrutinizer) (votePackage : String) : Res VotePackage :=
  match s.base64Decode votePackage with
  | .ok rawVote =>
    match s.jsonUnmarshal rawVote with
    | .ok vote => .ok vote
    | .err e => .err e
    | .panic => .panic
  | .err e => .err e
  | .panic => .panic

/-- Statement `pv[question][opt]++` on `uint32` counters: panics when an index is out of
range, wraps around at `2^32`. -/
def incrementCounter (pv : ProcessVotes) (question : Nat) (opt : Int) : Res ProcessVotes :=
  match pv[question]? with
  | none => .panic
  | some row =>
    if opt < 0 then .panic
    else
      match row[opt.toNat]? with
      | none => .panic
      | some c => .ok (pv.set question (row.set opt.toNat ((c + 1) % 2 ^ 32)))

/-- The folding loop shared by the live path (vote.go 44-50) and the deferred path
(vote.go 176-182):
`for question, opt := range votes { if opt > MaxOptions { continue }; pv[question][opt]++ }`.
The second argument is the index `question` of the head of the list. -/
def foldVotes (MaxOptions : Nat) : List Int → Nat → ProcessVotes → Res ProcessVotes
  | [], _, pv => .ok pv
  | opt :: rest, question, pv =>
    if opt > (MaxOptions : Int) then foldVotes MaxOptions rest (question + 1) pv
    else
      match incrementCounter pv question opt with
      | .ok pv2 => foldVotes MaxOptions rest (question + 1) pv2
      | .err e => .err e
      | .panic => .panic

/-- Method `Scrutinizer.addLiveResultsVote` (vote.go 25-63). -/
def addLiveResultsVote (s : Scrutinizer) (st : Storage) (envelope : Vote) :
    Res Unit × Storage :=
  match unmarshalVote s envelope.VotePackage with
  | .err e => (.err e, st)
  | .panic => (.panic, st)
  | .ok vote =>
    if vote.Votes.length > s.MaxQuestions then (.err .tooManyQuestions, st)
    else
      match Storage.Get s st (liveKey s envelope.ProcessID) with
      | .err e => (.err (.addVoteSkipped e), st)
      | .panic => (.panic, st)
      | .ok process =>
        match s.Codec.UnmarshalBinaryBare process with
        | .err e => (.err (.cannotUnmarshalVote e), st)
        | .panic => (.panic, st)
        | .ok pv =>
          match foldVotes s.MaxOptions vote.Votes 0 pv with
          | .err e => (.err e, st)
          | .panic => (.panic, st)
          | .ok pv2 =>
            match s.Codec.MarshalBinaryBare pv2 with
            | .err e => (.err e, st)
            | .panic => (.panic, st)
            | .ok process2 => Storage.Put s st (liveKey s envelope.ProcessID) process2

/-- Method `Scrutinizer.computeLiveResults` (vote.go 152-164). -/
def computeLiveResults (s : Scrutinizer) (st : Storage) (processID : String) :
    Res ProcessVotes :=
  match Storage.Get s st (liveKey s processID) with
  | .err e => .err e
  | .panic => .panic
  | .ok pb =>
    match s.Codec.UnmarshalBinaryBare pb with
    | .err e => .err e
    | .panic => .panic
    | .ok pv => pruneVoteResult s.MaxQuestions s.MaxOptions pv

/-- Loop of `computeNonLiveResults` over the envelope list (vote.go 169-184). An envelope
that cannot be fetched is skipped; the error of `unmarshalVote` is not looked at, so on
an undecodable package `vp` is nil and `vp.Votes` dereferences it. -/
def nonLiveLoop (s : Scrutinizer) (processID : String) :
    List String → ProcessVotes → Res ProcessVotes
  | [], pv => .ok pv
  | e :: rest, pv =>
    match s.Envelope (processID ++ "_" ++ e) with
    | .err _ => nonLiveLoop s processID rest pv
    | .panic => .panic
    | .ok v =>
      match unmarshalVote s v.VotePackage with
      | .err _ => .panic
      | .panic => .panic
      | .ok vp =>
        match foldVotes s.MaxOptions vp.Votes 0 pv with
        | .ok pv2 => nonLiveLoop s processID rest pv2
        | .err e => .err e
        | .panic => .panic

/-- Method `Scrutinizer.computeNonLiveResults` (vote.go 166-188). -/
def computeNonLiveResults (s : Scrutinizer) (processID : String) : Res ProcessVotes :=
  match nonLiveLoop s processID (s.EnvelopeList processID 0 (32 <<< 20))
      (emptyProcess s.MaxQuestions s.MaxOptions) with
  | .ok pv => pruneVoteResult s.MaxQuestions s.MaxOptions pv
  | .err e => .err e
  | .panic => .panic

/-- Tail of `ComputeResult` (vote.go 104-113): marshal the tally and store it under the
results key. -/
def storeResult (s : Scrutinizer) (st : Storage) (processID : String) (pv : ProcessVotes) :
    Res Unit × Storage :=
  match s.Codec.MarshalBinaryBare pv with
  | .err e => (.err e, st)
  | .panic => (.panic, st)
  | .ok result => Storage.Put s st (resultsKey s processID) result

/-- Method `Scrutinizer.ComputeResult` (vote.go 66-114). -/
def ComputeResult (s : Scrutinizer) (st : Storage) (processID : String) :
    Res Unit × Storage :=
  match s.Process processID with
  | .err e => (.err e, st)
  | .panic => (.panic, st)
  | .ok _ =>
    match Storage.Get s st (resultsKey s processID) with
    | .ok _ => (.err .alreadyComputed, st)
    | .panic => (.panic, st)
    | .err e =>
      if e ≠ .noKey then (.err e, st)
      else
        match s.isLiveResultsProcess processID with
        | .err e => (.err e, st)
        | .panic => (.panic, st)
        | .ok true =>
          match computeLiveResults s st processID with
          | .err e => (.err e, st)
          | .panic => (.panic, st)
          | .ok pv =>
            match Storage.Del s st (liveKey s processID) with
            | (.err e, st1) => (.err e, st1)
            | (.panic, st1) => (.panic, st1)
            | (.ok _, st1) => storeResult s st1 processID pv
        | .ok false =>
          match computeNonLiveResults s processID with
          | .err e => (.err e, st)
          | .panic => (.panic, st)
          | .ok pv => storeResult s st processID pv

/-- Method `Scrutinizer.VoteResult` (vote.go 117-150). -/
def VoteResult (s : Scrutinizer) (st : Storage) (processID0 : String) : Res ProcessVotes :=
  let processID := s.TrimHex processID0
  match s.Process processID with
  | .err e => .err e
  | .panic => .panic
  | .ok _ =>
    match Storage.Get s st (resultsKey s processID) with
    | .panic => .panic
    | .ok processBytes =>
      match s.Codec.UnmarshalBinaryBare processBytes with
      | .err e => .err e
      | .panic => .panic
      | .ok pv => .ok pv
    | .err e =>
      if e ≠ .noKey then .err e
      else
        match s.isLiveResultsProcess processID with
        | .err e => .err e
        | .panic => .panic
        | .ok false => .err .noResultsYet
        | .ok true => computeLiveResults s st processID

/-! ## A sample scrutinizer, on which the definitions are evaluated -/

/-- Sample codec, encoding: the number of rows, then every row behind its length. -/
def sampleEncode (pv : ProcessVotes) : Bytes :=
  pv.length :: (pv.map (fun row => row.length :: row)).flatten

/-- Sample codec, decoding of `n` length-prefixed rows. -/
def sampleDecodeRows : Nat → Bytes → Res ProcessVotes
  | 0, [] => .ok []
  | 0, _ :: _ => .err (.io 2)
  | _ + 1, [] => .err (.io 2)
  | n + 1, len :: bs =>
    if len ≤ bs.length then
      match sampleDecodeRows n (bs.drop len) with
      | .ok rows => .ok (bs.take len :: rows)
      | .err e => .err e
      | .panic => .panic
    else .err (.io 2)

/-- Sample codec, decoding. -/
def sampleDecode : Bytes → Res ProcessVotes
  | [] => .err (.io 2)
  | n :: bs => sampleDecodeRows n bs

/-- A process record in state `Active`. -/
def sampleProcess : Process where
  ProcessID := "p1"
  EntityID := "entity"
  Votes := []
  MkRoot := "root"
  NumberOfBlocks := 100
  InitBlock := 1
  CurrentState := .Active
  EncryptionKeys := []

/-- A scrutinizer with `MaxQuestions = 3` and `MaxOptions = 5`, a storage engine that never
fails, one live-mode process `p1` and the deferred-mode process `p2`, with one envelope each in
the vote logs of `p2` and `p3`. A vote package is a
string of digits, one chosen option per question; the package `!` does not decode. -/
def sampleScrutinizer : Scrutinizer where
  MaxQuestions := 3
  MaxOptions := 5
  ScrutinizerLiveProcessPrefix := "live_"
  ScrutinizerResultsPrefix := "results_"
  base64Decode := fun p => if p = "!" then .err (.io 1) else .ok (p.toList.map Char.toNat)
  jsonUnmarshal := fun raw => .ok ⟨raw.map (fun b => (b : Int) - 48)⟩
  Codec := ⟨fun pv => .ok (sampleEncode pv), sampleDecode⟩
  Process := fun id =>
    if id = "p1" then .ok sampleProcess
    else if id = "p2" then .ok { sampleProcess with ProcessID := "p2", CurrentState := .Finished }
    else .err (.io 3)
  isLiveResultsProcess := fun id => .ok (decide (id = "p1"))
  EnvelopeList := fun _ _ _ => ["e1"]
  Envelope := fun key =>
    if key = "p2_e1" then .ok ⟨"p2", "0000"⟩
    else if key = "p3_e1" then .ok ⟨"p3", "!"⟩
    else .err (.io 4)
  TrimHex := fun id =>
    match id.toList with
    | '0' :: 'x' :: rest => String.mk rest
    | _ => id
  getFault := fun _ => none
  putFault := fun _ => none
  delFault := fun _ => none

/-- A storage holding only the all-zero live tally of the process `processID`. -/
def sampleStorage (processID : String) : Storage := fun k =>
  if k = "live_" ++ processID then some (sampleEncode (emptyProcess 3 5)) else none

/-- The scrutinizer `s` over a vochain state in which the record of process `processID`
is `p`. -/
def Scrutinizer.withProcess (s : Scrutinizer) (processID : String) (p : Vocdoni.Process) :
    Scrutinizer :=
  { s with Process := fun i => if i = processID then .ok p else s.Process i }

/-! ## The census tree (`censustree/gravitontree/trie.go`) and its collaborators -/

/-- The (index, value) entries of a tree, in iteration order. -/
abbrev Entries := List (Bytes × Bytes)

/-- Constant `MaxKeySize` (trie.go 36). -/
def MaxKeySize : Nat := 128

/-- Constant `MaxValueSize` (trie.go 37). -/
def MaxValueSize : Nat := 256

/-- Type `exportElement` (trie.go 26-29). -/
structure exportElement where
  Key : Bytes
  Value : Bytes
  deriving DecidableEq, Repr

/-- Type `exportData` (trie.go 31-33). -/
structure exportData where
  Elements : List exportElement
  deriving DecidableEq, Repr

/-- Modelled from the spec: `statedb.StateTree`, the handle of the working tree, a key to
value mapping (each index at most once) with ordered iteration. -/
structure StateTree where
  entries : Entries
  deriving DecidableEq, Repr

/-- Modelled from the spec: `statedb.StateDB`, the versioned store below the tree: the
entries as of the last commit, the number of commits, and the tree kept under every
committed root. -/
structure StateDB where
  committed : Entries
  version : Nat
  roots : List (Bytes × Entries)
  deriving DecidableEq, Repr

set_option linter.dupNamespace false in
/-- Type `Tree` (trie.go 17-24). `Tree` and `store` are nil until `Init`. -/
structure Tree where
  Tree : Option StateTree
  store : Option StateDB
  dataDir : String
  name : String
  public : Nat
  lastAccessUnix : Int
  deriving DecidableEq, Repr

/-- What the census tree calls but does not define: the clock, the graviton constants and
verifiers, the bare codec, the root hash, and the failure (if any) with which the
underlying tree answers an insert and the store answers a commit. -/
structure TreeEnv where
  now : Int
  GravitonMaxKeySize : Nat
  GravitonMaxValueSize : Nat
  GravitonHashSizeBytes : Nat
  gravitonVerify : Bytes → Bytes → Option Bytes → Res Bool
  treeVerify : StateTree → Bytes → Bytes → Option Bytes → Bool
  bareMarshal : exportData → Res Bytes
  bareUnmarshal : Bytes → Res exportData
  rootHash : Entries → Bytes
  addFault : Bytes → Bytes → Option Nat
  commitFault : Nat → Option Nat

/-- Length of a Go byte slice that may be nil. -/
def goLen (b : Option Bytes) : Nat := (b.getD []).length

/-- The entries with `value` under `index`: overwritten in place when the index is
present, appended otherwise. -/
def upsert : Entries → Bytes → Bytes → Entries
  | [], index, value => [(index, value)]
  | (k, v) :: rest, index, value =>
    if k = index then (k, value) :: rest else (k, v) :: upsert rest index value

/-- Modelled from the spec: `StateTree.Add`, insertion into the underlying tree; a
rejected insertion leaves the tree as it was. -/
def StateTree.Add (env : TreeEnv) (tree : StateTree) (index value : Bytes) :
    Res Unit × StateTree :=
  match env.addFault index value with
  | some code => (.err (.io code), tree)
  | none => (.ok (), ⟨upsert tree.entries index value⟩)

/-- Modelled from the spec: `StateDB.Commit`, the atomic commit of the store: either the
working entries land under a new version and root, or nothing changes. -/
def StateDB.Commit (env : TreeEnv) (store : StateDB) (working : Option StateTree) :
    Res Unit × StateDB :=
  match env.commitFault store.version with
  | some code => (.err (.io code), store)
  | none =>
    match working with
    | none => (.ok (), { store with version := store.version + 1 })
    | some tree =>
      (.ok (), { committed := tree.entries, version := store.version + 1,
                 roots := (env.rootHash tree.entries, tree.entries) :: store.roots })

/-- Modelled from the spec: `StateDB.TreeWithRoot`, the tree kept under a committed root,
nil when the root is unknown. -/
def StateDB.TreeWithRoot (store : StateDB) (root : Bytes) : Option StateTree :=
  match store.roots.find? (fun r => r.1 = root) with
  | some r => some ⟨r.2⟩
  | none => none

/-- Modelled from the spec: `StateTree.Iterate(nil, callback)`, ordered iteration over all
entries; the callback returns `true` to stop. The callback also returns its updated
captured variables. -/
def StateTree.Iterate {σ : Type} (callback : Bytes → Bytes → σ → Bool × σ) :
    Entries → σ → σ
  | [], acc => acc
  | (k, v) :: rest, acc =>
    match callback k v acc with
    | (true, acc2) => acc2
    | (false, acc2) => StateTree.Iterate callback rest acc2

/-- Method `Tree.updateAccessTime` (trie.go 101-103). -/
def Tree.updateAccessTime (env : TreeEnv) (t : Vocdoni.Tree) : Vocdoni.Tree :=
  { t with lastAccessUnix := env.now }

/-- Method `Tree.Add` (trie.go 125-138). -/
def Tree.Add (env : TreeEnv) (t0 : Vocdoni.Tree) (index value : Bytes) : Res Unit × Vocdoni.Tree :=
  let t := t0.updateAccessTime env
  if index.length < 4 then (.err .indexTooSmall, t)
  else if index.length > MaxKeySize ∨ value.length > MaxValueSize then (.err .dataTooBig, t)
  else
    match t.Tree with
    | none => (.panic, t)
    | some tree =>
      match StateTree.Add env tree index value with
      | (.err e, tree2) => (.err e, { t with Tree := some tree2 })
      | (.panic, tree2) => (.panic, { t with Tree := some tree2 })
      | (.ok _, tree2) =>
        match t.store with
        | none => (.panic, { t with Tree := some tree2 })
        | some store =>
          match StateDB.Commit env store (some tree2) with
          | (r, store2) => (r, { t with Tree := some tree2, store := some store2 })

/-- Function `CheckProof` (trie.go 151-162). -/
def CheckProof (env : TreeEnv) (index value : Bytes) (root : Option Bytes) (mproof : Bytes) :
    Res Bool :=
  if index.length > env.GravitonMaxKeySize then .err .indexTooBig
  else if value.length > env.GravitonMaxValueSize then .err .valueTooBig
  else if goLen root ≠ env.GravitonHashSizeBytes then .err .rootLength
  else env.gravitonVerify index mproof root

/-- Method `Tree.CheckProof` (trie.go 165-177). -/
def Tree.CheckProof (env : TreeEnv) (t : Vocdoni.Tree) (index value : Bytes) (root : Option Bytes)
    (mproof : Bytes) : Res Bool × Vocdoni.Tree :=
  if index.length > env.GravitonMaxKeySize then (.err .indexTooBig, t)
  else if value.length > env.GravitonMaxValueSize then (.err .valueTooBig, t)
  else
    match t.Tree with
    | none => (.err .treeNotExist, t)
    | some tree => (.ok (env.treeVerify tree index mproof root), t.updateAccessTime env)

/-- Method `Tree.treeWithRoot` (trie.go 185-190); `panic` when the store is nil. -/
def Tree.treeWithRoot (t : Vocdoni.Tree) (root : Option Bytes) : Res (Option StateTree) :=
  match root with
  | none => .ok t.Tree
  | some r =>
    match t.store with
    | none => .panic
    | some store => .ok (store.TreeWithRoot r)

/-- Callback of `Dump` (trie.go 201-208): appends a copy of the entry to `dump.Elements`
and returns `false`. -/
def dumpCallback (k v : Bytes) (dump : exportData) : Bool × exportData :=
  let ee : exportElement :=
    { Key := goCopy (List.replicate k.length 0) k, Value := goCopy (List.replicate v.length 0) v }
  (false, { Elements := dump.Elements ++ [ee] })

/-- Method `Tree.Dump` (trie.go 194-210). -/
def Tree.Dump (env : TreeEnv) (t0 : Vocdoni.Tree) (root : Option Bytes) : Res Bytes × Vocdoni.Tree :=
  let t := t0.updateAccessTime env
  match t.treeWithRoot root with
  | .err e => (.err e, t)
  | .panic => (.panic, t)
  | .ok none => (.err .dumpRootNotFound, t)
  | .ok (some tree) =>
    (env.bareMarshal (StateTree.Iterate dumpCallback tree.entries { Elements := [] }), t)

/-- Loop of `ImportDump` (trie.go 250-254) over `census.Elements`; `panic` when the tree
handle is nil. -/
def importLoop (env : TreeEnv) : List exportElement → Option StateTree →
    Res Unit × Option StateTree
  | [], tree => (.ok (), tree)
  | _ :: _, none => (.panic, none)
  | ee :: rest, some tree =>
    match StateTree.Add env tree ee.Key ee.Value with
    | (.ok _, tree2) => importLoop env rest (some tree2)
    | (.err e, tree2) => (.err e, some tree2)
    | (.panic, tree2) => (.panic, some tree2)

/-- Method `Tree.ImportDump` (trie.go 244-257). -/
def Tree.ImportDump (env : TreeEnv) (t0 : Vocdoni.Tree) (data : Bytes) : Res Unit × Vocdoni.Tree :=
  let t := t0.updateAccessTime env
  match env.bareUnmarshal data with
  | .err e => (.err (.importUnmarshal e), t)
  | .panic => (.panic, t)
  | .ok census =>
    match importLoop env census.Elements t.Tree with
    | (.err e, tree2) => (.err e, { t with Tree := tree2 })
    | (.panic, tree2) => (.panic, { t with Tree := tree2 })
    | (.ok _, tree2) =>
      match t.store with
      | none => (.panic, { t with Tree := tree2 })
      | some store =>
        match StateDB.Commit env store tree2 with
        | (r, store2) => (r, { t with Tree := tree2, store := some store2 })

/-- A tree is well formed when no index occurs twice in it. -/
def StateTree.wf (tree : StateTree) : Prop := (tree.entries.map Prod.fst).Nodup

instance (tree : StateTree) : Decidable tree.wf := by
  unfold StateTree.wf; infer_instance

/-! ## A sample census tree, on which the definitions are evaluated -/

/-- Sample bare codec, encoding: every key and value behind its length. -/
def sampleBareEncode : List exportElement → Bytes
  | [] => []
  | ee :: rest => ee.Key.length :: ee.Key ++ (ee.Value.length :: ee.Value ++ sampleBareEncode rest)

/-- Sample bare codec, decoding with one unit of fuel per byte. -/
def sampleBareDecode : Nat → Bytes → Res (List exportElement)
  | _, [] => .ok []
  | 0, _ :: _ => .err (.io 5)
  | fuel + 1, klen :: bs =>
    if klen ≤ bs.length then
      match bs.drop klen with
      | [] => .err (.io 5)
      | vlen :: cs =>
        if vlen ≤ cs.length then
          match sampleBareDecode fuel (cs.drop vlen) with
          | .ok rest => .ok (⟨bs.take klen, cs.take vlen⟩ :: rest)
          | .err e => .err e
          | .panic => .panic
        else .err (.io 5)
    else .err (.io 5)

/-- An environment with a hash width of 4 bytes, graviton limits of 8 and 16 bytes, a
verifier that accepts a proof equal to the index and rejects an empty proof with an error,
and a store that never fails. -/
def sampleTreeEnv : TreeEnv where
  now := 1000
  GravitonMaxKeySize := 8
  GravitonMaxValueSize := 16
  GravitonHashSizeBytes := 4
  gravitonVerify := fun index mproof _ =>
    if mproof = [] then .err (.io 6) else .ok (decide (mproof = index))
  treeVerify := fun _ index mproof _ => decide (mproof = index)
  bareMarshal := fun d => .ok (sampleBareEncode d.Elements)
  bareUnmarshal := fun data =>
    match sampleBareDecode data.length data with
    | .ok l => .ok ⟨l⟩
    | .err e => .err e
    | .panic => .panic
  rootHash := fun entries => [entries.length, 0, 0, 0]
  addFault := fun _ _ => none
  commitFault := fun _ => none

/-- An initialised, empty tree. -/
def sampleFreshTree : Tree where
  Tree := some ⟨[]⟩
  store := some ⟨[], 0, []⟩
  dataDir := "dir/census"
  name := "census"
  public := 0
  lastAccessUnix := 0

/-- A tree with two committed entries. -/
def sampleTree : Tree where
  Tree := some ⟨[([1, 2, 3, 4], [9]), ([5, 6, 7, 8], [])]⟩
  store := some ⟨[([1, 2, 3, 4], [9]), ([5, 6, 7, 8], [])], 2, []⟩
  dataDir := "dir/census"
  name := "census"
  public := 1
  lastAccessUnix := 0

/-! ## Invariants stated by the specification -/

/-- Entry-size invariant of the membership tree: every index has 4 to `MaxKeySize` bytes
and every value at most `MaxValueSize` bytes. -/
def entrySizesOk (entries : Entries) : Prop :=
  ∀ kv ∈ entries, 4 ≤ kv.1.length ∧ kv.1.length ≤ MaxKeySize ∧ kv.2.length ≤ MaxValueSize

instance (entries : Entries) : Decidable (entrySizesOk entries) := by
  unfold entrySizesOk; infer_instance

/-- Entry-size invariant of a `Tree`: it holds of the entries behind the tree handle. -/
def treeSizesOk (t : Tree) : Prop :=
  match t.Tree with
  | none => True
  | some tree => entrySizesOk tree.entries

instance (t : Tree) : Decidable (treeSizesOk t) := by
  unfold treeSizesOk
  cases t.Tree <;> infer_instance

/-- Every counter of the tally is a `uint32`. -/
def countersUint32 (pv : ProcessVotes) : Prop := ∀ row ∈ pv, ∀ c ∈ row, c < 2 ^ 32

instance (pv : ProcessVotes) : Decidable (countersUint32 pv) := by
  unfold countersUint32; infer_instance

/-- A storage holding only, under the live key of `p1`, a 3x5 tally whose counter `[0][0]`
is the largest `uint32`. -/
def sampleFullCounterStorage : Storage := fun k =>
  if k = "live_p1" then
    some (sampleEncode [[4294967295, 0, 0, 0, 0], [0, 0, 0, 0, 0], [0, 0, 0, 0, 0]])
  else none

/-! ## Pruning: lemmas -/

theorem keepLen_le (row : List Nat) (n : Nat) : keepLen row n ≤ n := by
  induction n with
  | zero => simp [keepLen]
  | succ n ih =>
    unfold keepLen
    split
    · exact le_refl _
    · exact Nat.le_succ_of_le ih

theorem keepLen_zero_above (row : List Nat) (n o : Nat)
    (h1 : keepLen row n ≤ o) (h2 : o < n) : row.getD o 0 = 0 := by
  induction n with
  | zero => omega
  | succ n ih =>
    unfold keepLen at h1
    split at h1
    · omega
    · rename_i hz
      rcases Nat.lt_succ_iff_lt_or_eq.mp h2 with h | h
      · exact ih h1 h
      · subst h; simpa using hz

theorem keepLen_last_ne (row : List Nat) (n : Nat) (h : 0 < keepLen row n) :
    row.getD (keepLen row n - 1) 0 ≠ 0 := by
  induction n with
  | zero => simp [keepLen] at h
  | succ n ih =>
    unfold keepLen at h ⊢
    split
    · rename_i hz; simpa using hz
    · rename_i hz
      rw [if_neg hz] at h
      exact ih h

theorem keepLen_pos_of_ne (row : List Nat) (n o : Nat) (h1 : o < n)
    (h2 : row.getD o 0 ≠ 0) : 0 < keepLen row n := by
  by_contra hc
  have h0 : keepLen row n ≤ o := by omega
  exact h2 (keepLen_zero_above row n o h0 h1)

theorem keepRows_le (MO : Nat) (pv : ProcessVotes) (n : Nat) : keepRows MO pv n ≤ n := by
  induction n with
  | zero => simp [keepRows]
  | succ n ih =>
    unfold keepRows
    split
    · exact le_refl _
    · exact Nat.le_succ_of_le ih

theorem keepRows_zero_above (MO : Nat) (pv : ProcessVotes) (n q : Nat)
    (h1 : keepRows MO pv n ≤ q) (h2 : q < n) : keepLen (pv.getD q []) MO = 0 := by
  induction n with
  | zero => omega
  | succ n ih =>
    unfold keepRows at h1
    split at h1
    · omega
    · rename_i hz
      rcases Nat.lt_succ_iff_lt_or_eq.mp h2 with h | h
      · exact ih h1 h
      · subst h; omega

theorem keepRows_last_pos (MO : Nat) (pv : ProcessVotes) (n : Nat)
    (h : 0 < keepRows MO pv n) : 0 < keepLen (pv.getD (keepRows MO pv n - 1) []) MO := by
  induction n with
  | zero => simp [keepRows] at h
  | succ n ih =>
    unfold keepRows at h ⊢
    split
    · rename_i hz; simpa using hz
    · rename_i hz
      rw [if_neg hz] at h
      exact ih h

theorem index2_eq (pv : ProcessVotes) (q j : Nat) (hq : q < pv.length)
    (hj : j < (pv.getD q []).length) : index2 pv q j = .ok (cell pv q j) := by
  unfold index2 cell
  have h1 : pv[q]? = some (pv.getD q []) := by
    rw [List.getD_eq_getElem?_getD, List.getElem?_eq_getElem hq]; rfl
  rw [h1]
  simp only
  have h2 : (pv.getD q [])[j]? = some ((pv.getD q []).getD j 0) := by
    rw [List.getD_eq_getElem?_getD (pv.getD q []), List.getElem?_eq_getElem hj]; rfl
  rw [h2]

theorem fullShape_row (MQ MO : Nat) (pv : ProcessVotes) (h : fullShape MQ MO pv)
    (q : Nat) (hq : q < MQ) : (pv.getD q []).length = MO := by
  have hl : q < pv.length := by rw [h.1]; exact hq
  apply h.2
  rw [List.getD_eq_getElem?_getD, List.getElem?_eq_getElem hl]
  exact List.getElem_mem hl

theorem pruneScanUp_spec (pv : ProcessVotes) (q : Nat) (hq : q < pv.length)
    (n j : Nat) (hn : j + n = (pv.getD q []).length) :
    ∃ j2, pruneScanUp pv q n j = .ok j2 ∧ j ≤ j2 ∧ j2 ≤ j + n ∧
      (∀ o, j ≤ o → o < j2 → cell pv q o = 0) ∧
      (j2 < j + n → cell pv q j2 ≠ 0) := by
  induction n generalizing j with
  | zero => exact ⟨j, rfl, le_refl _, le_refl _, fun o h1 h2 => by omega, fun h => by omega⟩
  | succ n ih =>
    unfold pruneScanUp
    rw [index2_eq pv q j hq (by omega)]
    simp only
    by_cases hc : cell pv q j ≠ 0
    · rw [if_pos hc]
      exact ⟨j, rfl, le_refl _, by omega, fun o h1 h2 => by omega, fun _ => hc⟩
    · rw [if_neg hc]
      obtain ⟨j2, e, h1, h2, h3, h4⟩ := ih (j + 1) (by omega)
      refine ⟨j2, e, by omega, by omega, ?_, fun h => h4 (by omega)⟩
      intro o ho1 ho2
      rcases Nat.eq_or_lt_of_le ho1 with h | h
      · subst h; simpa using hc
      · exact h3 o h ho2

theorem pruneScanUp_lt_iff (pv : ProcessVotes) (q : Nat) (hq : q < pv.length) :
    ∃ j2, pruneScanUp pv q (pv.getD q []).length 0 = .ok j2 ∧
      (j2 < (pv.getD q []).length ↔ 0 < keepLen (pv.getD q []) (pv.getD q []).length) := by
  obtain ⟨j2, e, _, h2, h3, h4⟩ := pruneScanUp_spec pv q hq (pv.getD q []).length 0 (by simp)
  refine ⟨j2, e, ?_, ?_⟩
  · intro h
    exact keepLen_pos_of_ne _ _ j2 h (h4 (by omega))
  · intro h
    by_contra hc
    have := keepLen_last_ne _ _ h
    have hle := keepLen_le (pv.getD q []) (pv.getD q []).length
    exact this (h3 _ (Nat.zero_le _) (by omega))

theorem pruneFindMin_eq (MQ MO : Nat) (pv : ProcessVotes) (h : fullShape MQ MO pv)
    (n : Nat) (hn : n ≤ MQ) :
    pruneFindMin MO pv n = .ok ((keepRows MO pv n : Int) - 1) := by
  induction n with
  | zero => simp [pruneFindMin, keepRows]
  | succ n ih =>
    have hq : n < pv.length := by rw [h.1]; omega
    have hrow := fullShape_row MQ MO pv h n (by omega)
    obtain ⟨j2, e, hiff⟩ := pruneScanUp_lt_iff pv n hq
    rw [hrow] at e hiff
    unfold pruneFindMin keepRows
    rw [e]
    simp only
    by_cases hj : j2 < MO
    · rw [if_pos hj, if_pos (hiff.mp hj)]
      simp
    · rw [if_neg hj, if_neg (fun hp => hj (hiff.mpr hp))]
      exact ih (by omega)

theorem pruneScanDown_eq (pv : ProcessVotes) (q : Nat) (hq : q < pv.length)
    (n : Nat) (hn : n ≤ (pv.getD q []).length) :
    pruneScanDown pv q n = .ok ((keepLen (pv.getD q []) n : Int) - 1) := by
  induction n with
  | zero => simp [pruneScanDown, keepLen]
  | succ n ih =>
    unfold pruneScanDown keepLen
    rw [index2_eq pv q n hq (by omega)]
    simp only
    by_cases hc : cell pv q n ≠ 0
    · have hc2 : (pv.getD q []).getD n 0 ≠ 0 := hc
      rw [if_pos hc, if_pos hc2]
      simp
    · have hc2 : ¬ (pv.getD q []).getD n 0 ≠ 0 := hc
      rw [if_neg hc, if_neg hc2]
      exact ih (by omega)

theorem goCopy_make (l : Nat) (src : List Nat) (h : l ≤ src.length) :
    goCopy (List.replicate l 0) src = src.take l := by
  unfold goCopy
  simp [List.drop_eq_nil_of_le, h]
theorem pruneFillRows_eq (MQ MO : Nat) (pv : ProcessVotes) (h : fullShape MQ MO pv)
    (n i2 : Nat) (done : ProcessVotes) (hd : done.length = i2) (hn : i2 + n ≤ MQ) :
    pruneFillRows MO pv n i2 (done ++ List.replicate n []) =
      .ok (done ++ ((pv.drop i2).take n).map (pruneRow MO)) := by
  induction n generalizing i2 done with
  | zero => simp [pruneFillRows]
  | succ n ih =>
    have hq : i2 < pv.length := by rw [h.1]; omega
    have hrow := fullShape_row MQ MO pv h i2 (by omega)
    have hget : pv[i2]? = some (pv.getD i2 []) := by
      rw [List.getD_eq_getElem?_getD, List.getElem?_eq_getElem hq]; rfl
    unfold pruneFillRows
    rw [pruneScanDown_eq pv i2 hq MO (by omega), hget]
    simp only
    have hlen : i2 < (done ++ List.replicate (n + 1) ([] : List Nat)).length := by
      simp [hd]
    rw [if_pos hlen]
    have hk : ((keepLen (pv.getD i2 []) MO : Int) - 1 + 1).toNat = keepLen (pv.getD i2 []) MO := by
      simp
    rw [hk, goCopy_make _ _ (by rw [hrow]; exact keepLen_le _ _)]
    have hset : (done ++ List.replicate (n + 1) ([] : List Nat)).set i2
          ((pv.getD i2 []).take (keepLen (pv.getD i2 []) MO)) =
        (done ++ [pruneRow MO (pv.getD i2 [])]) ++ List.replicate n [] := by
      rw [List.set_append_right _ _ (by omega)]
      simp [hd, List.replicate_succ, pruneRow]
    rw [hset, ih (i2 + 1) (done ++ [pruneRow MO (pv.getD i2 [])]) (by simp [hd]) (by omega)]
    have hdrop : pv.drop i2 = pv.getD i2 [] :: pv.drop (i2 + 1) := by
      rw [List.drop_eq_getElem_cons hq]
      congr 1
      rw [List.getD_eq_getElem?_getD, List.getElem?_eq_getElem hq]; rfl
    rw [hdrop]
    simp

theorem pruneCopyLoop_eq (MQ MO : Nat) (pv : ProcessVotes) (h : fullShape MQ MO pv)
    (n i : Nat) (pvc : ProcessVotes) (hn : i + n ≤ MQ) :
    pruneCopyLoop MO pv n i pvc =
      .ok (if n = 0 then pvc else (pv.take (i + n)).map (pruneRow MO)) := by
  induction n generalizing i pvc with
  | zero => simp [pruneCopyLoop]
  | succ n ih =>
    unfold pruneCopyLoop
    have := pruneFillRows_eq MQ MO pv h (i + 1) 0 [] rfl (by omega)
    simp only [List.nil_append, List.drop_zero] at this
    rw [this]
    simp only
    rw [ih (i + 1) _ (by omega)]
    by_cases hz : n = 0
    · subst hz; simp
    · simp [hz, Nat.add_assoc, Nat.add_comm 1 n]

theorem pruneVoteResult_eq (MQ MO : Nat) (pv : ProcessVotes) (h : fullShape MQ MO pv) :
    pruneVoteResult MQ MO pv = .ok ((pv.take (keepRows MO pv MQ)).map (pruneRow MO)) := by
  unfold pruneVoteResult
  rw [pruneFindMin_eq MQ MO pv h MQ (le_refl _)]
  simp only
  have hk : ((keepRows MO pv MQ : Int) - 1 + 1).toNat = keepRows MO pv MQ := by simp
  rw [hk, pruneCopyLoop_eq MQ MO pv h _ 0 [] (by simpa using keepRows_le MO pv MQ)]
  by_cases hz : keepRows MO pv MQ = 0
  · simp [hz]
  · simp [hz]
theorem pruned_length (MQ MO : Nat) (pv : ProcessVotes) (h : fullShape MQ MO pv) :
    ((pv.take (keepRows MO pv MQ)).map (pruneRow MO)).length = keepRows MO pv MQ := by
  have := keepRows_le MO pv MQ
  simp [h.1, this]

theorem pruned_getD (MO : Nat) (pv : ProcessVotes) (k q : Nat) (hq : q < k) (hk : k ≤ pv.length) :
    ((pv.take k).map (pruneRow MO)).getD q [] = pruneRow MO (pv.getD q []) := by
  have hq2 : q < pv.length := by omega
  have hlen : q < ((pv.take k).map (pruneRow MO)).length := by simp; omega
  rw [List.getD_eq_getElem?_getD, List.getElem?_eq_getElem hlen]
  rw [List.getD_eq_getElem?_getD pv, List.getElem?_eq_getElem hq2]
  simp [List.getElem_take]

theorem pruneRow_length (MO : Nat) (row : List Nat) (h : row.length = MO) :
    (pruneRow MO row).length = keepLen row MO := by
  have := keepLen_le row MO
  simp [pruneRow, h, this]

theorem pruneRow_getD (MO : Nat) (row : List Nat) (o : Nat) (h : o < keepLen row MO) :
    (pruneRow MO row).getD o 0 = row.getD o 0 := by
  unfold pruneRow
  rw [List.getD_eq_getElem?_getD, List.getD_eq_getElem?_getD, List.getElem?_take_of_lt h]
/-- C1: for every full-shape tally, `pruneVoteResult` leaves a tally `out` with exactly `n`
rows, where `n = 0` if every counter is zero and otherwise `n - 1` is the greatest question
index owning a non-zero counter; each retained row has length `0` if it is all zero and
otherwise (index of its last non-zero option) + 1; every retained entry equals the original
counter at the same position. In particular the all-zero tally prunes to the empty sequence
and a tally whose only non-zero counters are `[0][0] = 3` and `[0][2] = 1` prunes to
`[[3, 0, 1]]`. -/
theorem pruneVoteResult_shape (MaxQuestions MaxOptions : Nat) (pv : ProcessVotes)
    (h : fullShape MaxQuestions MaxOptions pv) :
    ∃ out, pruneVoteResult MaxQuestions MaxOptions pv = .ok out ∧
      out.length ≤ MaxQuestions ∧
      (∀ q o, out.length ≤ q → q < MaxQuestions → o < MaxOptions → cell pv q o = 0) ∧
      (0 < out.length → ∃ o, o < MaxOptions ∧ cell pv (out.length - 1) o ≠ 0) ∧
      (∀ q, q < out.length →
        (out.getD q []).length ≤ MaxOptions ∧
        (∀ o, (out.getD q []).length ≤ o → o < MaxOptions → cell pv q o = 0) ∧
        (0 < (out.getD q []).length → cell pv q ((out.getD q []).length - 1) ≠ 0) ∧
        (∀ o, o < (out.getD q []).length → cell out q o = cell pv q o)) ∧
      ((∀ q o, cell pv q o = 0) → out = []) ∧
      (cell pv 0 0 = 3 → cell pv 0 2 = 1 →
        (∀ q o, ¬ (q = 0 ∧ (o = 0 ∨ o = 2)) → cell pv q o = 0) → out = [[3, 0, 1]]) := by
  have hk := keepRows_le MaxOptions pv MaxQuestions
  have hlen := pruned_length MaxQuestions MaxOptions pv h
  -- the general facts, stated for the computed output
  have A : ∀ q o, keepRows MaxOptions pv MaxQuestions ≤ q → q < MaxQuestions →
      o < MaxOptions → cell pv q o = 0 := by
    intro q o h1 h2 h3
    have hz := keepRows_zero_above MaxOptions pv MaxQuestions q h1 h2
    exact keepLen_zero_above (pv.getD q []) MaxOptions o (by omega) h3
  have B : 0 < keepRows MaxOptions pv MaxQuestions →
      ∃ o, o < MaxOptions ∧ cell pv (keepRows MaxOptions pv MaxQuestions - 1) o ≠ 0 := by
    intro hp
    have h1 := keepRows_last_pos MaxOptions pv MaxQuestions hp
    have h2 := keepLen_le (pv.getD (keepRows MaxOptions pv MaxQuestions - 1) []) MaxOptions
    exact ⟨_, by omega, keepLen_last_ne _ _ h1⟩
  have C : ∀ q, q < keepRows MaxOptions pv MaxQuestions →
      (((pv.take (keepRows MaxOptions pv MaxQuestions)).map (pruneRow MaxOptions)).getD q []
        = pruneRow MaxOptions (pv.getD q [])) ∧
      (pruneRow MaxOptions (pv.getD q [])).length = keepLen (pv.getD q []) MaxOptions := by
    intro q hq
    refine ⟨pruned_getD MaxOptions pv _ q hq (by rw [h.1]; exact hk), ?_⟩
    exact pruneRow_length MaxOptions _ (fullShape_row _ _ pv h q (by omega))
  have D : ∀ q, q < keepRows MaxOptions pv MaxQuestions →
      (((pv.take (keepRows MaxOptions pv MaxQuestions)).map (pruneRow MaxOptions)).getD q []).length
          ≤ MaxOptions ∧
      (∀ o, (((pv.take (keepRows MaxOptions pv MaxQuestions)).map
          (pruneRow MaxOptions)).getD q []).length ≤ o → o < MaxOptions → cell pv q o = 0) ∧
      (0 < (((pv.take (keepRows MaxOptions pv MaxQuestions)).map
          (pruneRow MaxOptions)).getD q []).length →
        cell pv q ((((pv.take (keepRows MaxOptions pv MaxQuestions)).map
          (pruneRow MaxOptions)).getD q []).length - 1) ≠ 0) ∧
      (∀ o, o < (((pv.take (keepRows MaxOptions pv MaxQuestions)).map
          (pruneRow MaxOptions)).getD q []).length →
        cell ((pv.take (keepRows MaxOptions pv MaxQuestions)).map (pruneRow MaxOptions)) q o
          = cell pv q o) := by
    intro q hq
    obtain ⟨c1, c2⟩ := C q hq
    refine ⟨?_, ?_, ?_, ?_⟩
    · rw [c1, c2]; exact keepLen_le _ _
    · intro o h1 h2
      rw [c1, c2] at h1
      exact keepLen_zero_above _ _ o h1 h2
    · intro hp
      rw [c1, c2] at hp ⊢
      exact keepLen_last_ne _ _ hp
    · intro o ho
      rw [c1, c2] at ho
      unfold cell
      rw [c1]
      exact pruneRow_getD MaxOptions _ o ho
  refine ⟨_, pruneVoteResult_eq MaxQuestions MaxOptions pv h, ?_, ?_, ?_, ?_, ?_, ?_⟩
  · rw [hlen]; exact hk
  · rw [hlen]; exact A
  · rw [hlen]; exact B
  · rw [hlen]; exact D
  · intro hz
    apply List.eq_nil_of_length_eq_zero
    rw [hlen]
    by_contra hne
    obtain ⟨o, _, ho⟩ := B (Nat.pos_of_ne_zero hne)
    exact ho (hz _ _)
  · intro h00 h02 hrest
    -- exactly one row is kept, of length three
    have hMQ : 0 < MaxQuestions := by
      by_contra hc
      have : pv = [] := List.eq_nil_of_length_eq_zero (by rw [h.1]; omega)
      rw [this] at h00
      simp [cell] at h00
    have hrow0 := fullShape_row _ _ pv h 0 hMQ
    have hMO : 2 < MaxOptions := by
      by_contra hc
      have : (pv.getD 0 []).getD 2 0 = 0 := by
        rw [List.getD_eq_getElem?_getD, List.getElem?_eq_none (by omega)]; rfl
      have h02b : (pv.getD 0 []).getD 2 0 = 1 := h02
      omega
    have hk1 : keepRows MaxOptions pv MaxQuestions = 1 := by
      have hpos : 0 < keepRows MaxOptions pv MaxQuestions := by
        by_contra hc
        have := A 0 0 (by omega) hMQ (by omega)
        omega
      by_contra hne
      obtain ⟨o, _, ho⟩ := B hpos
      exact ho (hrest _ _ (by omega))
    have hl3 : keepLen (pv.getD 0 []) MaxOptions = 3 := by
      have hle := keepLen_le (pv.getD 0 []) MaxOptions
      have hge : 3 ≤ keepLen (pv.getD 0 []) MaxOptions := by
        by_contra hc
        have := keepLen_zero_above (pv.getD 0 []) MaxOptions 2 (by omega) hMO
        have h02b : (pv.getD 0 []).getD 2 0 = 1 := h02
        omega
      by_contra hne
      have hp : 0 < keepLen (pv.getD 0 []) MaxOptions := by omega
      have := keepLen_last_ne _ _ hp
      exact this (hrest 0 _ (by omega))
    obtain ⟨c1, c2⟩ := C 0 (by omega)
    have e0 : pruneRow MaxOptions (pv.getD 0 []) = [3, 0, 1] := by
      apply List.ext_getElem
      · rw [c2, hl3]; rfl
      · intro i hi1 hi2
        have hi3 : i < 3 := by simpa using hi2
        have hg := pruneRow_getD MaxOptions (pv.getD 0 []) i (by omega)
        rw [List.getD_eq_getElem?_getD, List.getElem?_eq_getElem hi1] at hg
        simp only [Option.getD_some] at hg
        rw [hg]
        have h1 : (pv.getD 0 []).getD 1 0 = 0 := hrest 0 1 (by omega)
        have h00b : (pv.getD 0 []).getD 0 0 = 3 := h00
        have h02b : (pv.getD 0 []).getD 2 0 = 1 := h02
        interval_cases i
        · exact h00b
        · exact h1
        · exact h02b
    apply List.ext_getElem
    · rw [hlen, hk1]; rfl
    · intro i hi1 hi2
      have hi3 : i = 0 := by simp at hi2; omega
      subst hi3
      have hg := c1
      rw [List.getD_eq_getElem?_getD, List.getElem?_eq_getElem hi1] at hg
      simp only [Option.getD_some] at hg
      rw [hg, e0]
      rfl

/-- Witness for C1 on the 3x5 tally of the specification. -/
theorem pruneVoteResult_shape_witness :
    fullShape 3 5 [[3, 0, 1, 0, 0], [0, 0, 0, 0, 0], [0, 0, 0, 0, 0]] ∧
    pruneVoteResult 3 5 [[3, 0, 1, 0, 0], [0, 0, 0, 0, 0], [0, 0, 0, 0, 0]] = .ok [[3, 0, 1]] ∧
    pruneVoteResult 3 5 (emptyProcess 3 5) = .ok [] ∧
    ∃ out, pruneVoteResult 3 5 [[3, 0, 1, 0, 0], [0, 0, 0, 0, 0], [0, 0, 0, 0, 0]] = .ok out ∧
      out = [[3, 0, 1]] := by
  refine ⟨by decide, by decide, by decide, ?_⟩
  obtain ⟨out, e, _, _, _, _, _, hex⟩ :=
    pruneVoteResult_shape 3 5 [[3, 0, 1, 0, 0], [0, 0, 0, 0, 0], [0, 0, 0, 0, 0]] (by decide)
  refine ⟨out, e, hex (by decide) (by decide) ?_⟩
  intro q o hne
  match q, o with
  | 0, 0 => simp at hne
  | 0, 1 => rfl
  | 0, 2 => simp at hne
  | 0, 3 => rfl
  | 0, 4 => rfl
  | 0, o + 5 => simp [cell]
  | 1, 0 => rfl
  | 1, 1 => rfl
  | 1, 2 => rfl
  | 1, 3 => rfl
  | 1, 4 => rfl
  | 1, o + 5 => simp [cell]
  | 2, 0 => rfl
  | 2, 1 => rfl
  | 2, 2 => rfl
  | 2, 3 => rfl
  | 2, 4 => rfl
  | 2, o + 5 => simp [cell]
  | q + 3, o => simp [cell]
/-! ## Scrutinizer: lemmas -/

theorem storeResult_ok_inv (s : Scrutinizer) (st st2 : Storage) (id : String)
    (pv : ProcessVotes) (h : storeResult s st id pv = (.ok (), st2)) :
    ∃ result, s.Codec.MarshalBinaryBare pv = .ok result ∧ s.putFault (resultsKey s id) = none ∧
      st2 = fun k => if k = resultsKey s id then some result else st k := by
  unfold storeResult at h
  split at h
  · simp at h
  · simp at h
  · rename_i result hm
    unfold Storage.Put at h
    split at h
    · simp at h
    · rename_i hf
      simp only [Prod.mk.injEq, true_and] at h
      exact ⟨result, hm, hf, h.symm⟩

theorem storageDel_ok_inv (s : Scrutinizer) (st st1 : Storage) (key : String) (u : Unit)
    (h : Storage.Del s st key = (.ok u, st1)) :
    s.delFault key = none ∧ st1 = fun k => if k = key then none else st k := by
  unfold Storage.Del at h
  split at h
  · simp at h
  · rename_i hf
    simp only [Prod.mk.injEq, true_and] at h
    exact ⟨hf, h.symm⟩

theorem storageGet_ok_inv (s : Scrutinizer) (st : Storage) (key : String) (v : Bytes)
    (h : Storage.Get s st key = .ok v) : s.getFault key = none ∧ st key = some v := by
  unfold Storage.Get at h
  split at h
  · simp at h
  · rename_i hf
    split at h
    · rename_i w hw
      simp only [Res.ok.injEq] at h
      subst h
      exact ⟨hf, hw⟩
    · simp at h

theorem storageGet_noKey_inv (s : Scrutinizer) (st : Storage) (key : String)
    (h : Storage.Get s st key = .err .noKey) : s.getFault key = none ∧ st key = none := by
  unfold Storage.Get at h
  split at h
  · simp at h
  · rename_i hf
    split at h
    · simp at h
    · rename_i hw
      exact ⟨hf, hw⟩

theorem computeLiveResults_ok_inv (s : Scrutinizer) (st : Storage) (id : String)
    (out : ProcessVotes) (h : computeLiveResults s st id = .ok out) :
    ∃ pb pv, Storage.Get s st (liveKey s id) = .ok pb ∧
      s.Codec.UnmarshalBinaryBare pb = .ok pv ∧
      pruneVoteResult s.MaxQuestions s.MaxOptions pv = .ok out := by
  unfold computeLiveResults at h
  split at h
  · simp at h
  · simp at h
  · rename_i pb hpb
    split at h
    · simp at h
    · simp at h
    · rename_i pv hpv
      exact ⟨pb, pv, hpb, hpv, h⟩

theorem ComputeResult_ok_inv (s : Scrutinizer) (st st2 : Storage) (id : String)
    (h : ComputeResult s st id = (.ok (), st2)) :
    (∃ p, s.Process id = .ok p) ∧ Storage.Get s st (resultsKey s id) = .err .noKey ∧
    ((s.isLiveResultsProcess id = .ok true ∧ ∃ pv st1,
        computeLiveResults s st id = .ok pv ∧
        Storage.Del s st (liveKey s id) = (.ok (), st1) ∧
        storeResult s st1 id pv = (.ok (), st2)) ∨
     (s.isLiveResultsProcess id = .ok false ∧ ∃ pv,
        computeNonLiveResults s id = .ok pv ∧ storeResult s st id pv = (.ok (), st2))) := by
  unfold ComputeResult at h
  split at h
  · simp at h
  · simp at h
  · rename_i p hp
    refine ⟨⟨p, hp⟩, ?_⟩
    split at h
    · simp at h
    · simp at h
    · rename_i e he
      split at h
      · simp at h
      · rename_i hne
        have hnk : e = .noKey := by simpa using hne
        subst hnk
        refine ⟨he, ?_⟩
        split at h
        · simp at h
        · simp at h
        · rename_i hl
          left
          refine ⟨hl, ?_⟩
          split at h
          · simp at h
          · simp at h
          · rename_i pv hpv
            split at h
            · simp at h
            · simp at h
            · rename_i u st1 hdel
              exact ⟨pv, st1, hpv, hdel, h⟩
        · rename_i hl
          right
          refine ⟨hl, ?_⟩
          split at h
          · simp at h
          · simp at h
          · rename_i pv hpv
            exact ⟨pv, hpv, h⟩
/-- C2 (defect in the code): on a stored full-shape tally, a decodable vote package with at
most `MaxQuestions` answers whose first answer is the option `MaxOptions` passes the guard
`opt > MaxOptions` and makes `addLiveResultsVote` index a row of `MaxOptions` counters at
`MaxOptions`: the call panics instead of dropping the answer and returning no error. -/
theorem addLiveResultsVote_option_MaxOptions_panics (s : Scrutinizer) (st : Storage)
    (envelope : Vote) (rest : List Int) (process : Bytes) (pv : ProcessVotes)
    (hvote : unmarshalVote s envelope.VotePackage = .ok ⟨(s.MaxOptions : Int) :: rest⟩)
    (hlen : rest.length + 1 ≤ s.MaxQuestions)
    (hget : Storage.Get s st (liveKey s envelope.ProcessID) = .ok process)
    (hdec : s.Codec.UnmarshalBinaryBare process = .ok pv)
    (hfull : fullShape s.MaxQuestions s.MaxOptions pv) :
    addLiveResultsVote s st envelope = (.panic, st) := by
  have hq : 0 < pv.length := by rw [hfull.1]; omega
  have hrow := fullShape_row _ _ pv hfull 0 (by omega)
  have hget0 : pv[0]? = some (pv.getD 0 []) := by
    rw [List.getD_eq_getElem?_getD, List.getElem?_eq_getElem hq]; rfl
  have hinc : incrementCounter pv 0 (s.MaxOptions : Int) = .panic := by
    unfold incrementCounter
    rw [hget0]
    simp only
    rw [if_neg (by omega)]
    have : (pv.getD 0 [])[(s.MaxOptions : Int).toNat]? = none := by
      apply List.getElem?_eq_none
      rw [hrow, Int.toNat_ofNat]
    rw [this]
  have hfold : foldVotes s.MaxOptions ((s.MaxOptions : Int) :: rest) 0 pv = .panic := by
    unfold foldVotes
    rw [if_neg (by omega), hinc]
  unfold addLiveResultsVote
  rw [hvote]
  simp only
  rw [if_neg (by simp; omega), hget]
  simp only
  rw [hdec]
  simp only
  rw [hfold]

/-- Witness for C2: with `MaxQuestions = 3` and `MaxOptions = 5`, the package with the
single answer `5` panics on the all-zero tally, whereas the answer `6` is dropped. -/
theorem addLiveResultsVote_option_MaxOptions_panics_witness :
    addLiveResultsVote sampleScrutinizer (sampleStorage "p1") ⟨"p1", "5"⟩
      = (.panic, sampleStorage "p1") ∧
    (addLiveResultsVote sampleScrutinizer (sampleStorage "p1") ⟨"p1", "6"⟩).1 = .ok () :=
  ⟨addLiveResultsVote_option_MaxOptions_panics sampleScrutinizer (sampleStorage "p1")
      ⟨"p1", "5"⟩ [] (sampleEncode (emptyProcess 3 5)) (emptyProcess 3 5)
      (by decide) (by decide) (by decide) (by decide) (by decide),
    by decide⟩

/-- C3: for an existing process whose results key is present in the storage,
`ComputeResult` returns the `already computed` error and leaves the storage as it was; and
immediately after a successful `ComputeResult` a second call for the same process fails
with that error. -/
theorem ComputeResult_already_computed (s : Scrutinizer) (st : Storage) (processID : String) :
    ((∃ p, s.Process processID = .ok p) →
      (∃ v, Storage.Get s st (resultsKey s processID) = .ok v) →
      ComputeResult s st processID = (.err .alreadyComputed, st)) ∧
    (∀ st2, ComputeResult s st processID = (.ok (), st2) →
      ComputeResult s st2 processID = (.err .alreadyComputed, st2)) := by
  have first : ∀ st0 : Storage, (∃ p, s.Process processID = .ok p) →
      (∃ v, Storage.Get s st0 (resultsKey s processID) = .ok v) →
      ComputeResult s st0 processID = (.err .alreadyComputed, st0) := by
    intro st0 ⟨p, hp⟩ ⟨v, hv⟩
    unfold ComputeResult
    rw [hp]
    simp only
    rw [hv]
  refine ⟨first st, ?_⟩
  intro st2 h
  obtain ⟨hp, hnk, hcase⟩ := ComputeResult_ok_inv s st st2 processID h
  have hfault := (storageGet_noKey_inv s st _ hnk).1
  have hstored : ∃ result, st2 (resultsKey s processID) = some result := by
    rcases hcase with ⟨_, pv, st1, _, _, hst⟩ | ⟨_, pv, _, hst⟩
    · obtain ⟨result, _, _, e⟩ := storeResult_ok_inv s st1 st2 processID pv hst
      exact ⟨result, by rw [e]; simp⟩
    · obtain ⟨result, _, _, e⟩ := storeResult_ok_inv s st st2 processID pv hst
      exact ⟨result, by rw [e]; simp⟩
  obtain ⟨result, hres⟩ := hstored
  apply first st2 hp
  refine ⟨result, ?_⟩
  unfold Storage.Get
  rw [hfault]
  simp only
  rw [hres]

/-- Witness for C3: the live-mode process `p1` of the sample scrutinizer, computed twice. -/
theorem ComputeResult_already_computed_witness :
    ComputeResult sampleScrutinizer (sampleStorage "p1") "p1"
      = (.ok (), (ComputeResult sampleScrutinizer (sampleStorage "p1") "p1").2) ∧
    ComputeResult sampleScrutinizer (ComputeResult sampleScrutinizer (sampleStorage "p1") "p1").2
      "p1" = (.err .alreadyComputed,
        (ComputeResult sampleScrutinizer (sampleStorage "p1") "p1").2) :=
  ⟨Prod.ext (by decide) rfl,
    (ComputeResult_already_computed sampleScrutinizer (sampleStorage "p1") "p1").2 _
      (Prod.ext (by decide) rfl)⟩

/-- C4: whenever `ComputeResult` succeeds for a live-mode process, the storage afterwards
holds under the results key the encoding of the pruned form of the live tally that was
stored before the call, the live-tally key is absent, and every other key is unchanged. -/
theorem ComputeResult_live_effect (s : Scrutinizer) (st st2 : Storage) (processID : String)
    (hlive : s.isLiveResultsProcess processID = .ok true)
    (h : ComputeResult s st processID = (.ok (), st2)) :
    ∃ pb pv pruned result,
      st (liveKey s processID) = some pb ∧
      s.Codec.UnmarshalBinaryBare pb = .ok pv ∧
      pruneVoteResult s.MaxQuestions s.MaxOptions pv = .ok pruned ∧
      s.Codec.MarshalBinaryBare pruned = .ok result ∧
      st2 (resultsKey s processID) = some result ∧
      st2 (liveKey s processID) = none ∧
      ∀ k, k ≠ resultsKey s processID → k ≠ liveKey s processID → st2 k = st k := by
  obtain ⟨_, hnk, hcase⟩ := ComputeResult_ok_inv s st st2 processID h
  rcases hcase with ⟨_, pruned, st1, hcl, hdel, hst⟩ | ⟨hl, _⟩
  · obtain ⟨pb, pv, hget, hdec, hpr⟩ := computeLiveResults_ok_inv s st processID pruned hcl
    obtain ⟨result, hm, _, e2⟩ := storeResult_ok_inv s st1 st2 processID pruned hst
    obtain ⟨_, e1⟩ := storageDel_ok_inv s st st1 _ () hdel
    have hpb := (storageGet_ok_inv s st _ pb hget).2
    have hno := (storageGet_noKey_inv s st _ hnk).2
    have hkeys : liveKey s processID ≠ resultsKey s processID := by
      intro hc
      rw [hc, hno] at hpb
      simp at hpb
    refine ⟨pb, pv, pruned, result, hpb, hdec, hpr, hm, ?_, ?_, ?_⟩
    · rw [e2]; simp
    · rw [e2, e1]; simp [hkeys]
    · intro k hk1 hk2
      rw [e2, e1]; simp [hk1, hk2]
  · rw [hlive] at hl
    simp at hl

/-- Witness for C4: process `p1` of the sample scrutinizer after one vote for option 0 of
question 0 and option 2 of question 1. -/
theorem ComputeResult_live_effect_witness :
    sampleScrutinizer.isLiveResultsProcess "p1" = .ok true ∧
    (ComputeResult sampleScrutinizer
      (addLiveResultsVote sampleScrutinizer (sampleStorage "p1") ⟨"p1", "02"⟩).2 "p1").2
        "results_p1" = some (sampleEncode [[1], [0, 0, 1]]) ∧
    ∃ pb pv pruned result,
      (addLiveResultsVote sampleScrutinizer (sampleStorage "p1") ⟨"p1", "02"⟩).2
        (liveKey sampleScrutinizer "p1") = some pb ∧
      sampleScrutinizer.Codec.UnmarshalBinaryBare pb = .ok pv ∧
      pruneVoteResult sampleScrutinizer.MaxQuestions sampleScrutinizer.MaxOptions pv
        = .ok pruned ∧
      sampleScrutinizer.Codec.MarshalBinaryBare pruned = .ok result ∧
      (ComputeResult sampleScrutinizer
        (addLiveResultsVote sampleScrutinizer (sampleStorage "p1") ⟨"p1", "02"⟩).2 "p1").2
          (resultsKey sampleScrutinizer "p1") = some result ∧
      (ComputeResult sampleScrutinizer
        (addLiveResultsVote sampleScrutinizer (sampleStorage "p1") ⟨"p1", "02"⟩).2 "p1").2
          (liveKey sampleScrutinizer "p1") = none ∧
      ∀ k, k ≠ resultsKey sampleScrutinizer "p1" → k ≠ liveKey sampleScrutinizer "p1" →
        (ComputeResult sampleScrutinizer
          (addLiveResultsVote sampleScrutinizer (sampleStorage "p1") ⟨"p1", "02"⟩).2 "p1").2 k
          = (addLiveResultsVote sampleScrutinizer (sampleStorage "p1") ⟨"p1", "02"⟩).2 k :=
  ⟨by decide, by decide,
    ComputeResult_live_effect sampleScrutinizer _ _ "p1" (by decide)
      (Prod.ext (by decide) rfl)⟩
theorem nonLiveLoop_withProcess (s : Scrutinizer) (id : String) (p : Process)
    (processID : String) (l : List String) (pv : ProcessVotes) :
    nonLiveLoop (s.withProcess id p) processID l pv = nonLiveLoop s processID l pv := by
  induction l generalizing pv with
  | nil => rfl
  | cons e rest ih =>
    unfold nonLiveLoop
    simp only [ih]
    rfl

theorem computeNonLiveResults_withProcess (s : Scrutinizer) (id : String) (p : Process)
    (processID : String) :
    computeNonLiveResults (s.withProcess id p) processID = computeNonLiveResults s processID := by
  unfold computeNonLiveResults
  rw [nonLiveLoop_withProcess]
  rfl

/-- C5 (counterexample): process `p1` of the sample scrutinizer is in state `Active`, and
`ComputeResult` returns no error and persists a result record for it. -/
theorem ComputeResult_state_gate_counterexample :
    sampleScrutinizer.Process "p1" = .ok sampleProcess ∧
    sampleProcess.CurrentState = .Active ∧
    (ComputeResult sampleScrutinizer (sampleStorage "p1") "p1").1 = .ok () ∧
    (sampleStorage "p1") "results_p1" = none ∧
    (ComputeResult sampleScrutinizer (sampleStorage "p1") "p1").2 "results_p1"
      = some (sampleEncode []) := by
  refine ⟨by decide, by decide, by decide, by decide, by decide⟩

/-- C5 (amended): `ComputeResult` does not look at the `CurrentState` of the process. For
an existing process, the error or success it returns and the storage it leaves are the
same whatever the `CurrentState` of the process record is. -/
theorem ComputeResult_state_independent (s : Scrutinizer) (st : Storage) (processID : String)
    (p : Process) (state : CurrentProcessState) :
    ComputeResult (s.withProcess processID { p with CurrentState := state }) st processID
      = ComputeResult (s.withProcess processID p) st processID := by
  unfold ComputeResult
  simp only [computeNonLiveResults_withProcess]
  simp only [Scrutinizer.withProcess, if_true]
  rfl

/-- C6: for an existing process (the argument with its hex prefix trimmed), `VoteResult`
returns the decoded persisted result when the results key is present; otherwise, for a
live-mode process, the pruned form of the stored live tally; otherwise, for a
deferred-mode process, the error `no results yet`. -/
theorem VoteResult_cases (s : Scrutinizer) (st : Storage) (processID : String) (p : Process)
    (hp : s.Process (s.TrimHex processID) = .ok p) :
    (∀ processBytes,
      Storage.Get s st (resultsKey s (s.TrimHex processID)) = .ok processBytes →
      VoteResult s st processID = s.Codec.UnmarshalBinaryBare processBytes) ∧
    (Storage.Get s st (resultsKey s (s.TrimHex processID)) = .err .noKey →
      s.isLiveResultsProcess (s.TrimHex processID) = .ok true →
      ∀ pb pv, Storage.Get s st (liveKey s (s.TrimHex processID)) = .ok pb →
        s.Codec.UnmarshalBinaryBare pb = .ok pv →
        VoteResult s st processID = pruneVoteResult s.MaxQuestions s.MaxOptions pv) ∧
    (Storage.Get s st (resultsKey s (s.TrimHex processID)) = .err .noKey →
      s.isLiveResultsProcess (s.TrimHex processID) = .ok false →
      VoteResult s st processID = .err .noResultsYet) := by
  refine ⟨?_, ?_, ?_⟩
  · intro processBytes hget
    unfold VoteResult
    simp only
    rw [hp]
    simp only
    rw [hget]
    simp only
    cases s.Codec.UnmarshalBinaryBare processBytes <;> rfl
  · intro hget hlive pb pv hpb hpv
    unfold VoteResult
    simp only
    rw [hp]
    simp only
    rw [hget]
    simp only [ne_eq, not_true_eq_false, if_false]
    rw [hlive]
    simp only
    unfold computeLiveResults
    rw [hpb]
    simp only
    rw [hpv]
  · intro hget hlive
    unfold VoteResult
    simp only
    rw [hp]
    simp only
    rw [hget]
    simp only [ne_eq, not_true_eq_false, if_false]
    rw [hlive]

/-- Witness for C6: the three cases on the sample scrutinizer. -/
theorem VoteResult_cases_witness :
    sampleScrutinizer.Process (sampleScrutinizer.TrimHex "0xp1") = .ok sampleProcess ∧
    VoteResult sampleScrutinizer
      (ComputeResult sampleScrutinizer (sampleStorage "p1") "p1").2 "0xp1" = .ok [] ∧
    VoteResult sampleScrutinizer
      (addLiveResultsVote sampleScrutinizer (sampleStorage "p1") ⟨"p1", "02"⟩).2 "0xp1"
        = .ok [[1], [0, 0, 1]] ∧
    VoteResult sampleScrutinizer (sampleStorage "p1") "p2" = .err .noResultsYet ∧
    VoteResult sampleScrutinizer (sampleStorage "p1") "0xp1"
      = pruneVoteResult sampleScrutinizer.MaxQuestions sampleScrutinizer.MaxOptions
          (emptyProcess 3 5) :=
  ⟨by decide, by decide, by decide, by decide,
    (VoteResult_cases sampleScrutinizer (sampleStorage "p1") "0xp1" sampleProcess
      (by decide)).2.1 (by decide) (by decide) (sampleEncode (emptyProcess 3 5))
      (emptyProcess 3 5) (by decide) (by decide)⟩

/-- C7 (defect in the code): when the vote log of a process holds one envelope whose vote
package does not decode, the deferred path `computeNonLiveResults` panics (it does not look
at the error of `unmarshalVote` and dereferences the nil package), whereas the live path
rejects the same envelope with the decoding error, leaves the stored tally untouched, and
`computeLiveResults` still returns its pruned form. -/
theorem computeNonLiveResults_undecodable_diverges (s : Scrutinizer) (st : Storage)
    (processID e : String) (v : Vote) (x : Err)
    (hlist : s.EnvelopeList processID 0 (32 <<< 20) = [e])
    (henv : s.Envelope (processID ++ "_" ++ e) = .ok v)
    (hbad : unmarshalVote s v.VotePackage = .err x) :
    computeNonLiveResults s processID = .panic ∧
    addLiveResultsVote s st v = (.err x, st) ∧
    computeLiveResults s (addLiveResultsVote s st v).2 processID
      = computeLiveResults s st processID := by
  have hlive : addLiveResultsVote s st v = (.err x, st) := by
    unfold addLiveResultsVote
    rw [hbad]
  refine ⟨?_, hlive, by rw [hlive]⟩
  unfold computeNonLiveResults
  rw [hlist]
  unfold nonLiveLoop
  rw [henv]
  simp only
  rw [hbad]

/-- Witness for C7: process `p3` of the sample scrutinizer, whose log holds the undecodable
package `!`; and process `p2`, whose log holds a package of four answers where
`MaxQuestions = 3`: the deferred path panics on both, the live path rejects both and
returns the empty pruned tally. -/
theorem computeNonLiveResults_undecodable_diverges_witness :
    (computeNonLiveResults sampleScrutinizer "p3" = .panic ∧
      addLiveResultsVote sampleScrutinizer (sampleStorage "p3") ⟨"p3", "!"⟩
        = (.err (.io 1), sampleStorage "p3") ∧
      computeLiveResults sampleScrutinizer
        (addLiveResultsVote sampleScrutinizer (sampleStorage "p3") ⟨"p3", "!"⟩).2 "p3"
        = computeLiveResults sampleScrutinizer (sampleStorage "p3") "p3") ∧
    computeLiveResults sampleScrutinizer (sampleStorage "p3") "p3" = .ok [] ∧
    computeNonLiveResults sampleScrutinizer "p2" = .panic ∧
    (addLiveResultsVote sampleScrutinizer (sampleStorage "p2") ⟨"p2", "0000"⟩).1
      = .err .tooManyQuestions ∧
    computeLiveResults sampleScrutinizer
      (addLiveResultsVote sampleScrutinizer (sampleStorage "p2") ⟨"p2", "0000"⟩).2 "p2"
      = .ok [] :=
  ⟨computeNonLiveResults_undecodable_diverges sampleScrutinizer (sampleStorage "p3") "p3" "e1"
      ⟨"p3", "!"⟩ (.io 1) (by decide) (by decide) (by decide),
    by decide, by decide, by decide, by decide⟩
/-! ## Census tree -/

/-- C8: `Tree.Add` returns an error without inserting into the underlying tree and without
committing if `len(index) < 4`, `len(index) > 128` or `len(value) > 256`; for every other
input (on an initialised tree) it inserts `(index, value)` into the underlying tree and
then commits the store, and returns an error only if the underlying insert or the commit
fails. -/
theorem Tree_Add_contract (env : TreeEnv) (t : Tree) (index value : Bytes) :
    ((index.length < 4 ∨ index.length > 128 ∨ value.length > 256) →
      (Tree.Add env t index value).1.isErr = true ∧
      (Tree.Add env t index value).2.Tree = t.Tree ∧
      (Tree.Add env t index value).2.store = t.store) ∧
    (¬ (index.length < 4 ∨ index.length > 128 ∨ value.length > 256) →
      ∀ tree store, t.Tree = some tree → t.store = some store →
        (Tree.Add env t index value).2.Tree = some (StateTree.Add env tree index value).2 ∧
        ((StateTree.Add env tree index value).1 = .ok () →
          (Tree.Add env t index value).1
            = (StateDB.Commit env store (some (StateTree.Add env tree index value).2)).1 ∧
          (Tree.Add env t index value).2.store
            = some (StateDB.Commit env store (some (StateTree.Add env tree index value).2)).2) ∧
        (∀ e, (StateTree.Add env tree index value).1 = .err e →
          (Tree.Add env t index value).1 = .err e ∧
          (Tree.Add env t index value).2.store = t.store) ∧
        ((Tree.Add env t index value).1.isErr = true ↔
          ((StateTree.Add env tree index value).1.isErr = true ∨
           (StateDB.Commit env store (some (StateTree.Add env tree index value).2)).1.isErr
             = true))) := by
  constructor
  · intro hbad
    unfold Tree.Add
    simp only [MaxKeySize, MaxValueSize]
    by_cases h4 : index.length < 4
    · rw [if_pos h4]
      exact ⟨rfl, rfl, rfl⟩
    · rw [if_neg h4]
      have hbig : index.length > 128 ∨ value.length > 256 := by
        rcases hbad with h | h | h
        · exact absurd h h4
        · exact Or.inl h
        · exact Or.inr h
      rw [if_pos hbig]
      exact ⟨rfl, rfl, rfl⟩
  · intro hgood tree store htree hstore
    have h4 : ¬ index.length < 4 := fun h => hgood (Or.inl h)
    have hbig : ¬ (index.length > 128 ∨ value.length > 256) := by
      intro h
      rcases h with h | h
      · exact hgood (Or.inr (Or.inl h))
      · exact hgood (Or.inr (Or.inr h))
    have hcommit : ∃ r store2, StateDB.Commit env store
        (some (⟨upsert tree.entries index value⟩ : StateTree)) = (r, store2) := ⟨_, _, rfl⟩
    obtain ⟨r, store2, hc⟩ := hcommit
    have hr : r = .ok () ∨ ∃ c, r = .err (.io c) := by
      unfold StateDB.Commit at hc
      cases hf : env.commitFault store.version with
      | none => rw [hf] at hc; simp only [Prod.mk.injEq] at hc; exact Or.inl hc.1.symm
      | some c => rw [hf] at hc; simp only [Prod.mk.injEq] at hc; exact Or.inr ⟨c, hc.1.symm⟩
    unfold Tree.Add
    simp only [MaxKeySize, MaxValueSize, Tree.updateAccessTime]
    rw [if_neg h4, if_neg hbig, htree]
    simp only
    unfold StateTree.Add
    cases hf : env.addFault index value with
    | some c =>
      simp [hstore, Res.isErr]
    | none =>
      simp only [hstore, hc]
      rcases hr with hr | ⟨c, hr⟩ <;> subst hr <;> simp [Res.isErr]

/-- Witness for C8: an index of three bytes is rejected and the sample tree keeps its
entries and version; an index of four bytes is inserted and committed. -/
theorem Tree_Add_contract_witness :
    ((Tree.Add sampleTreeEnv sampleFreshTree [1, 2, 3] [1]).1.isErr = true ∧
      (Tree.Add sampleTreeEnv sampleFreshTree [1, 2, 3] [1]).2.Tree = sampleFreshTree.Tree ∧
      (Tree.Add sampleTreeEnv sampleFreshTree [1, 2, 3] [1]).2.store = sampleFreshTree.store) ∧
    (Tree.Add sampleTreeEnv sampleFreshTree [1, 2, 3, 4] [1]).1 = .ok () ∧
    (Tree.Add sampleTreeEnv sampleFreshTree [1, 2, 3, 4] [1]).2.Tree
      = some ⟨[([1, 2, 3, 4], [1])]⟩ ∧
    (Tree.Add sampleTreeEnv sampleFreshTree [1, 2, 3, 4] [1]).2.Tree
      = some (StateTree.Add sampleTreeEnv ⟨[]⟩ [1, 2, 3, 4] [1]).2 :=
  ⟨(Tree_Add_contract sampleTreeEnv sampleFreshTree [1, 2, 3] [1]).1 (by decide),
    by decide, by decide,
    ((Tree_Add_contract sampleTreeEnv sampleFreshTree [1, 2, 3, 4] [1]).2 (by decide)
      ⟨[]⟩ ⟨[], 0, []⟩ rfl rfl).1⟩
/-- C9 (counterexample): with a hash width of 4, an index and a value within the maxima,
the method `Tree.CheckProof` returns a verdict and no error for a root of length 1; it
returns an error for a root of length 4 when the tree handle is nil; and the function
`CheckProof` returns an error for a root of length 4 when the verifier returns one. -/
theorem CheckProof_contract_counterexample :
    ([1, 2, 3, 4] : Bytes).length ≤ sampleTreeEnv.GravitonMaxKeySize ∧
    ([] : Bytes).length ≤ sampleTreeEnv.GravitonMaxValueSize ∧
    goLen (some [1]) ≠ sampleTreeEnv.GravitonHashSizeBytes ∧
    goLen (some [1, 1, 1, 1]) = sampleTreeEnv.GravitonHashSizeBytes ∧
    (Tree.CheckProof sampleTreeEnv sampleTree [1, 2, 3, 4] [] (some [1]) [1, 2, 3, 4]).1
      = .ok true ∧
    (Tree.CheckProof sampleTreeEnv { sampleTree with Tree := none } [1, 2, 3, 4] []
      (some [1, 1, 1, 1]) [1, 2, 3, 4]).1 = .err .treeNotExist ∧
    CheckProof sampleTreeEnv [1, 2, 3, 4] [] (some [1, 1, 1, 1]) [] = .err (.io 6) := by
  refine ⟨by decide, by decide, by decide, by decide, by decide, by decide, by decide⟩

/-- C9 (amended): the function `CheckProof` returns an error whenever the index is longer
than the maximum key size, the value is longer than the maximum value size or the length
of the root differs from the hash width, and otherwise returns what the underlying verifier
returns, its error included. The method `Tree.CheckProof` returns an error whenever the
index or the value is longer than its maximum or the tree handle is nil, and for an index
and value within the maxima, a root of the hash width and a non-nil tree handle it returns
the verdict of the tree's verifier without error. -/
theorem CheckProof_contract (env : TreeEnv) (t : Tree) (index value : Bytes)
    (root : Option Bytes) (mproof : Bytes) :
    ((index.length > env.GravitonMaxKeySize ∨ value.length > env.GravitonMaxValueSize ∨
        goLen root ≠ env.GravitonHashSizeBytes) →
      (CheckProof env index value root mproof).isErr = true) ∧
    (¬ (index.length > env.GravitonMaxKeySize ∨ value.length > env.GravitonMaxValueSize ∨
        goLen root ≠ env.GravitonHashSizeBytes) →
      CheckProof env index value root mproof = env.gravitonVerify index mproof root) ∧
    ((index.length > env.GravitonMaxKeySize ∨ value.length > env.GravitonMaxValueSize ∨
        t.Tree = none) →
      (Tree.CheckProof env t index value root mproof).1.isErr = true) ∧
    (∀ tree, index.length ≤ env.GravitonMaxKeySize → value.length ≤ env.GravitonMaxValueSize →
      goLen root = env.GravitonHashSizeBytes → t.Tree = some tree →
      (Tree.CheckProof env t index value root mproof).1
        = .ok (env.treeVerify tree index mproof root)) := by
  refine ⟨?_, ?_, ?_, ?_⟩
  · intro h
    unfold CheckProof
    by_cases h1 : index.length > env.GravitonMaxKeySize
    · rw [if_pos h1]; rfl
    · rw [if_neg h1]
      by_cases h2 : value.length > env.GravitonMaxValueSize
      · rw [if_pos h2]; rfl
      · rw [if_neg h2]
        have h3 : goLen root ≠ env.GravitonHashSizeBytes := by
          rcases h with h | h | h
          · exact absurd h h1
          · exact absurd h h2
          · exact h
        rw [if_pos h3]; rfl
  · intro h
    unfold CheckProof
    rw [if_neg (fun h1 => h (Or.inl h1)), if_neg (fun h2 => h (Or.inr (Or.inl h2))),
      if_neg (fun h3 => h (Or.inr (Or.inr h3)))]
  · intro h
    unfold Tree.CheckProof
    by_cases h1 : index.length > env.GravitonMaxKeySize
    · rw [if_pos h1]; rfl
    · rw [if_neg h1]
      by_cases h2 : value.length > env.GravitonMaxValueSize
      · rw [if_pos h2]; rfl
      · rw [if_neg h2]
        have h3 : t.Tree = none := by
          rcases h with h | h | h
          · exact absurd h h1
          · exact absurd h h2
          · exact h
        rw [h3]; rfl
  · intro tree h1 h2 _ h4
    unfold Tree.CheckProof
    rw [if_neg (by omega), if_neg (by omega), h4]

/-- Witness for C9 (amended): both entry points on the sample tree, with a root of the hash
width and with oversized arguments. -/
theorem CheckProof_contract_witness :
    (CheckProof sampleTreeEnv [1, 2, 3, 4, 5, 6, 7, 8, 9] [] (some [1, 1, 1, 1]) [1]).isErr
      = true ∧
    CheckProof sampleTreeEnv [1, 2, 3, 4] [] (some [1, 1, 1, 1]) [1, 2, 3, 4] = .ok true ∧
    CheckProof sampleTreeEnv [1, 2, 3, 4] [] (some [1, 1, 1, 1]) [1, 2, 3, 4]
      = sampleTreeEnv.gravitonVerify [1, 2, 3, 4] [1, 2, 3, 4] (some [1, 1, 1, 1]) ∧
    (Tree.CheckProof sampleTreeEnv sampleTree [1, 2, 3, 4] [] (some [1, 1, 1, 1])
      [1, 2, 3, 4]).1 = .ok true :=
  ⟨(CheckProof_contract sampleTreeEnv sampleTree [1, 2, 3, 4, 5, 6, 7, 8, 9] []
      (some [1, 1, 1, 1]) [1]).1 (by decide),
    by decide,
    (CheckProof_contract sampleTreeEnv sampleTree [1, 2, 3, 4] [] (some [1, 1, 1, 1])
      [1, 2, 3, 4]).2.1 (by decide),
    by decide⟩
theorem goCopy_full (k : Bytes) : goCopy (List.replicate k.length 0) k = k := by
  rw [goCopy_make k.length k (le_refl _), List.take_length]

theorem iterate_dumpCallback (entries : Entries) (acc : List exportElement) :
    StateTree.Iterate dumpCallback entries { Elements := acc }
      = { Elements := acc ++ entries.map (fun kv => ⟨kv.1, kv.2⟩) } := by
  induction entries generalizing acc with
  | nil => simp [StateTree.Iterate]
  | cons kv rest ih =>
    obtain ⟨k, v⟩ := kv
    unfold StateTree.Iterate
    simp only [dumpCallback, goCopy_full]
    rw [ih]
    simp

theorem upsert_new (acc : Entries) (k v : Bytes) (h : k ∉ acc.map Prod.fst) :
    upsert acc k v = acc ++ [(k, v)] := by
  induction acc with
  | nil => rfl
  | cons kv rest ih =>
    obtain ⟨k2, v2⟩ := kv
    simp only [List.map_cons, List.mem_cons, not_or] at h
    unfold upsert
    rw [if_neg (fun e => h.1 e.symm), ih h.2]
    rfl

theorem upsert_keys_of_mem (acc : Entries) (k v : Bytes) (h : k ∈ acc.map Prod.fst) :
    (upsert acc k v).map Prod.fst = acc.map Prod.fst := by
  induction acc with
  | nil => simp at h
  | cons kv rest ih =>
    obtain ⟨k2, v2⟩ := kv
    unfold upsert
    by_cases hk : k2 = k
    · rw [if_pos hk]; rfl
    · rw [if_neg hk]
      simp only [List.map_cons, List.mem_cons] at h
      rcases h with h | h
      · exact absurd h.symm hk
      · simp only [List.map_cons, ih h]

theorem upsert_keys_nodup (acc : Entries) (k v : Bytes) (h : (acc.map Prod.fst).Nodup) :
    ((upsert acc k v).map Prod.fst).Nodup := by
  by_cases hk : k ∈ acc.map Prod.fst
  · rw [upsert_keys_of_mem acc k v hk]; exact h
  · rw [upsert_new acc k v hk]
    simp only [List.map_append, List.map_cons, List.map_nil]
    rw [List.nodup_append]
    refine ⟨h, List.nodup_singleton _, ?_⟩
    intro a ha hb
    simp only [List.mem_singleton] at hb
    subst hb
    exact hk ha

theorem importLoop_fresh (env : TreeEnv) (entries acc : Entries)
    (hnodup : ((acc ++ entries).map Prod.fst).Nodup)
    (hadd : ∀ kv ∈ entries, env.addFault kv.1 kv.2 = none) :
    importLoop env (entries.map (fun kv => (⟨kv.1, kv.2⟩ : exportElement))) (some ⟨acc⟩)
      = (.ok (), some ⟨acc ++ entries⟩) := by
  induction entries generalizing acc with
  | nil => simp [importLoop]
  | cons kv rest ih =>
    obtain ⟨k, v⟩ := kv
    have hk : k ∉ acc.map Prod.fst := by
      intro hmem
      simp only [List.map_append, List.map_cons] at hnodup
      rw [List.nodup_append] at hnodup
      exact hnodup.2.2 hmem (List.mem_cons_self _ _)
    simp only [List.map_cons]
    unfold importLoop
    simp only [StateTree.Add]
    rw [hadd (k, v) (List.mem_cons_self _ _)]
    simp only
    rw [upsert_new acc k v hk, ih (acc ++ [(k, v)])]
    · simp
    · simpa using hnodup
    · intro kv hkv
      exact hadd kv (List.mem_cons_of_mem _ hkv)

theorem treeWithRoot_updateAccessTime (env : TreeEnv) (t : Tree) (root : Option Bytes) :
    (t.updateAccessTime env).treeWithRoot root = t.treeWithRoot root := by
  cases root <;> rfl

theorem sampleBare_roundtrip (l : List exportElement) (fuel : Nat)
    (h : (sampleBareEncode l).length ≤ fuel) :
    sampleBareDecode fuel (sampleBareEncode l) = .ok l := by
  induction l generalizing fuel with
  | nil => cases fuel <;> rfl
  | cons ee rest ih =>
    obtain ⟨k, v⟩ := ee
    cases fuel with
    | zero => simp [sampleBareEncode] at h
    | succ fuel =>
      simp only [sampleBareEncode, List.length_cons, List.length_append] at h
      have hk : k.length ≤ (k ++ (v.length :: v ++ sampleBareEncode rest)).length := by
        simp
      have hv : v.length ≤ (v ++ sampleBareEncode rest).length := by simp
      have hd : (k ++ (v.length :: v ++ sampleBareEncode rest)).drop k.length
          = v.length :: (v ++ sampleBareEncode rest) := by simp
      show sampleBareDecode (fuel + 1)
        (k.length :: (k ++ (v.length :: v ++ sampleBareEncode rest))) = _
      unfold sampleBareDecode
      rw [if_pos hk, hd]
      simp only
      rw [if_pos hv]
      simp only [List.drop_left, List.take_left]
      rw [ih fuel (by omega)]

/-- C10: for every tree, `ImportDump` applied in a fresh (empty) tree to the bytes returned
by `Dump` of the first tree succeeds and leaves the fresh tree holding exactly the same
(key, value) entries as the dumped tree, no index twice, and commits them; assuming that
the bare encoding round-trips the export list and that the underlying tree and store do
not fail. -/
theorem Dump_ImportDump_roundtrip (env : TreeEnv) (t1 t2 : Tree) (root : Option Bytes)
    (dumped : StateTree) (data : Bytes) (store : StateDB)
    (hview : t1.treeWithRoot root = .ok (some dumped))
    (hwf : dumped.wf)
    (hdump : (Tree.Dump env t1 root).1 = .ok data)
    (hcodec : ∀ d bytes, env.bareMarshal d = .ok bytes → env.bareUnmarshal bytes = .ok d)
    (hadd : ∀ kv ∈ dumped.entries, env.addFault kv.1 kv.2 = none)
    (hcommit : ∀ n, env.commitFault n = none)
    (hfresh : t2.Tree = some ⟨[]⟩) (hstore : t2.store = some store) :
    (Tree.ImportDump env t2 data).1 = .ok () ∧
    ∃ tree2 store2,
      (Tree.ImportDump env t2 data).2.Tree = some tree2 ∧
      (Tree.ImportDump env t2 data).2.store = some store2 ∧
      (∀ k v, (k, v) ∈ tree2.entries ↔ (k, v) ∈ dumped.entries) ∧
      tree2.wf ∧
      (∀ k v, (k, v) ∈ store2.committed ↔ (k, v) ∈ dumped.entries) := by
  have hm : env.bareMarshal
      { Elements := dumped.entries.map (fun kv => (⟨kv.1, kv.2⟩ : exportElement)) }
        = .ok data := by
    unfold Tree.Dump at hdump
    simp only [treeWithRoot_updateAccessTime, hview, iterate_dumpCallback,
      List.nil_append] at hdump
    exact hdump
  have hu := hcodec _ _ hm
  have hloop := importLoop_fresh env dumped.entries [] (by simpa using hwf) hadd
  unfold Tree.ImportDump
  simp only [hu, Tree.updateAccessTime, hfresh, hloop, hstore, StateDB.Commit, hcommit,
    List.nil_append]
  exact ⟨trivial, _, _, rfl, rfl, fun _ _ => Iff.rfl, hwf, fun _ _ => Iff.rfl⟩

/-- Witness for C10: the sample tree of two entries, dumped and imported into the empty
sample tree. -/
theorem Dump_ImportDump_roundtrip_witness :
    (Tree.Dump sampleTreeEnv sampleTree none).1 = .ok [4, 1, 2, 3, 4, 1, 9, 4, 5, 6, 7, 8, 0] ∧
    (Tree.ImportDump sampleTreeEnv sampleFreshTree
      [4, 1, 2, 3, 4, 1, 9, 4, 5, 6, 7, 8, 0]).2.Tree
      = some ⟨[([1, 2, 3, 4], [9]), ([5, 6, 7, 8], [])]⟩ ∧
    (Tree.ImportDump sampleTreeEnv sampleFreshTree [4, 1, 2, 3, 4, 1, 9, 4, 5, 6, 7, 8, 0]).1
      = .ok () := by
  refine ⟨by decide, by decide, ?_⟩
  exact (Dump_ImportDump_roundtrip sampleTreeEnv sampleTree sampleFreshTree none
    ⟨[([1, 2, 3, 4], [9]), ([5, 6, 7, 8], [])]⟩ [4, 1, 2, 3, 4, 1, 9, 4, 5, 6, 7, 8, 0]
    ⟨[], 0, []⟩ rfl (by decide) (by decide)
    (by
      intro d bytes h
      obtain ⟨l⟩ := d
      simp only [sampleTreeEnv, Res.ok.injEq] at h
      subst h
      simp only [sampleTreeEnv]
      rw [sampleBare_roundtrip l _ (le_refl _)])
    (by intro kv _; rfl) (by intro n; rfl) rfl rfl).1
/-! ## Entry sizes of the census tree -/

theorem mem_upsert (acc : Entries) (k v : Bytes) (kv : Bytes × Bytes)
    (h : kv ∈ upsert acc k v) : kv ∈ acc ∨ kv = (k, v) := by
  induction acc with
  | nil =>
    simp only [upsert, List.mem_singleton] at h
    exact Or.inr h
  | cons hd rest ih =>
    obtain ⟨k2, v2⟩ := hd
    unfold upsert at h
    by_cases hk : k2 = k
    · rw [if_pos hk] at h
      rcases List.mem_cons.mp h with h | h
      · right; rw [h, hk]
      · left; exact List.mem_cons_of_mem _ h
    · rw [if_neg hk] at h
      rcases List.mem_cons.mp h with h | h
      · left; rw [h]; exact List.mem_cons_self _ _
      · rcases ih h with h | h
        · left; exact List.mem_cons_of_mem _ h
        · right; exact h

theorem mem_upsert_self (acc : Entries) (k v : Bytes) : (k, v) ∈ upsert acc k v := by
  induction acc with
  | nil => simp [upsert]
  | cons hd rest ih =>
    obtain ⟨k2, v2⟩ := hd
    unfold upsert
    by_cases hk : k2 = k
    · rw [if_pos hk, hk]; exact List.mem_cons_self _ _
    · rw [if_neg hk]; exact List.mem_cons_of_mem _ ih

theorem Tree_Add_ok_inv (env : TreeEnv) (t : Tree) (index value : Bytes)
    (h : (Tree.Add env t index value).1 = .ok ()) :
    4 ≤ index.length ∧ index.length ≤ MaxKeySize ∧ value.length ≤ MaxValueSize ∧
    ∃ tree, t.Tree = some tree ∧
      (Tree.Add env t index value).2.Tree = some ⟨upsert tree.entries index value⟩ := by
  unfold Tree.Add at h ⊢
  simp only [Tree.updateAccessTime] at h ⊢
  by_cases h4 : index.length < 4
  · rw [if_pos h4] at h; simp at h
  · rw [if_neg h4] at h ⊢
    by_cases hbig : index.length > MaxKeySize ∨ value.length > MaxValueSize
    · rw [if_pos hbig] at h; simp at h
    · rw [if_neg hbig] at h ⊢
      refine ⟨by omega, by omega, by omega, ?_⟩
      cases htree : t.Tree with
      | none => rw [htree] at h; simp at h
      | some tree =>
        rw [htree] at h
        refine ⟨tree, rfl, ?_⟩
        simp only [StateTree.Add] at h ⊢
        cases hf : env.addFault index value with
        | some c => rw [hf] at h; simp at h
        | none =>
          simp only
          cases hs : t.store with
          | none => rfl
          | some store => rfl
/-- C11 (defect in the code): `Tree.Add` keeps the entry-size invariant on every argument on
which it succeeds, but `Tree.ImportDump` does not: it hands every element of the dump to
the underlying tree without the size guards of `Tree.Add`, so a dump holding one element
whose index has fewer than 4 bytes is imported with success and leaves that entry in the
tree. -/
theorem ImportDump_breaks_entry_sizes (env : TreeEnv) (t : Tree) (index value : Bytes) :
    (treeSizesOk t → (Tree.Add env t index value).1 = .ok () →
      treeSizesOk (Tree.Add env t index value).2) ∧
    (∀ data tree store, t.Tree = some tree → t.store = some store →
      env.bareUnmarshal data = .ok ⟨[⟨index, value⟩]⟩ →
      index.length < 4 →
      env.addFault index value = none → env.commitFault store.version = none →
      (Tree.ImportDump env t data).1 = .ok () ∧
      (Tree.ImportDump env t data).2.Tree = some ⟨upsert tree.entries index value⟩ ∧
      ¬ treeSizesOk (Tree.ImportDump env t data).2) := by
  constructor
  · intro hinv hok
    obtain ⟨h1, h2, h3, tree, htree, hres⟩ := Tree_Add_ok_inv env t index value hok
    unfold treeSizesOk at hinv ⊢
    rw [htree] at hinv
    rw [hres]
    intro kv hkv
    rcases mem_upsert tree.entries index value kv hkv with h | h
    · exact hinv kv h
    · rw [h]; exact ⟨h1, h2, h3⟩
  · intro data tree store htree hstore hdec hshort hadd hcommit
    have hrun : Tree.ImportDump env t data
        = (.ok (), { t.updateAccessTime env with
            Tree := some ⟨upsert tree.entries index value⟩,
            store := some { committed := upsert tree.entries index value,
                            version := store.version + 1,
                            roots := (env.rootHash (upsert tree.entries index value),
                              upsert tree.entries index value) :: store.roots } }) := by
      unfold Tree.ImportDump
      simp only [hdec, Tree.updateAccessTime, htree, importLoop, StateTree.Add, hadd, hstore,
        StateDB.Commit, hcommit]
    rw [hrun]
    refine ⟨rfl, rfl, ?_⟩
    intro hinv
    have := hinv (index, value) (mem_upsert_self tree.entries index value)
    simp only at this
    omega

/-- Witness for C11: on the empty sample tree, `Add` rejects the index `[1, 2, 3]`, while
`ImportDump` of a dump holding it succeeds and stores it. -/
theorem ImportDump_breaks_entry_sizes_witness :
    treeSizesOk sampleFreshTree ∧
    (Tree.Add sampleTreeEnv sampleFreshTree [1, 2, 3] [7]).1 = .err .indexTooSmall ∧
    ((Tree.ImportDump sampleTreeEnv sampleFreshTree [3, 1, 2, 3, 1, 7]).1 = .ok () ∧
      (Tree.ImportDump sampleTreeEnv sampleFreshTree [3, 1, 2, 3, 1, 7]).2.Tree
        = some ⟨upsert [] [1, 2, 3] [7]⟩ ∧
      ¬ treeSizesOk (Tree.ImportDump sampleTreeEnv sampleFreshTree [3, 1, 2, 3, 1, 7]).2) ∧
    treeSizesOk (Tree.Add sampleTreeEnv sampleFreshTree [1, 2, 3, 4] [7]).2 :=
  ⟨by decide, by decide,
    (ImportDump_breaks_entry_sizes sampleTreeEnv sampleFreshTree [1, 2, 3] [7]).2
      [3, 1, 2, 3, 1, 7] ⟨[]⟩ ⟨[], 0, []⟩ rfl rfl (by decide) (by decide) rfl rfl,
    (ImportDump_breaks_entry_sizes sampleTreeEnv sampleFreshTree [1, 2, 3, 4] [7]).1
      (by decide) (by decide)⟩
/-! ## Counters of the live tally -/

theorem cell_set_row (pv : ProcessVotes) (q : Nat) (row : List Nat) (q2 o : Nat)
    (hq : q < pv.length) :
    cell (pv.set q row) q2 o = if q2 = q then row.getD o 0 else cell pv q2 o := by
  have h1 : (pv.set q row).getD q2 [] = if q2 = q then row else pv.getD q2 [] := by
    rw [List.getD_eq_getElem?_getD (pv.set q row), List.getElem?_set,
      List.getD_eq_getElem?_getD pv]
    by_cases h : q = q2
    · subst h
      simp [hq]
    · have h2 : ¬ q2 = q := fun e => h e.symm
      simp [h, h2]
  unfold cell
  rw [h1]
  by_cases h : q2 = q
  · simp [h]
  · simp [h]

theorem getD_set_counter (row : List Nat) (j : Nat) (c o : Nat) (hj : j < row.length) :
    (row.set j c).getD o 0 = if o = j then c else row.getD o 0 := by
  rw [List.getD_eq_getElem?_getD (row.set j c), List.getElem?_set,
    List.getD_eq_getElem?_getD row]
  by_cases h : j = o
  · subst h
    simp [hj]
  · have h2 : ¬ o = j := fun e => h e.symm
    simp [h, h2]

theorem incrementCounter_ok_inv (pv pv1 : ProcessVotes) (question : Nat) (opt : Int)
    (h : incrementCounter pv question opt = .ok pv1) :
    ∀ q o, cell pv1 q o =
      if q = question ∧ o = opt.toNat then (cell pv q o + 1) % 2 ^ 32 else cell pv q o := by
  unfold incrementCounter at h
  cases hrow : pv[question]? with
  | none => rw [hrow] at h; simp at h
  | some row =>
    rw [hrow] at h
    simp only at h
    by_cases hneg : opt < 0
    · rw [if_pos hneg] at h; simp at h
    · rw [if_neg hneg] at h
      cases hc : row[opt.toNat]? with
      | none => rw [hc] at h; simp at h
      | some c =>
        rw [hc] at h
        simp only [Res.ok.injEq] at h
        subst h
        have hq : question < pv.length := by
          by_contra hge
          rw [List.getElem?_eq_none (by omega)] at hrow
          simp at hrow
        have hj : opt.toNat < row.length := by
          by_contra hge
          rw [List.getElem?_eq_none (by omega)] at hc
          simp at hc
        have hrowD : pv.getD question [] = row := by
          rw [List.getD_eq_getElem?_getD, hrow]; rfl
        have hcD : row.getD opt.toNat 0 = c := by
          rw [List.getD_eq_getElem?_getD, hc]; rfl
        intro q o
        rw [cell_set_row pv question _ q o hq, getD_set_counter row _ _ o hj]
        by_cases h1 : q = question
        · subst h1
          by_cases h2 : o = opt.toNat
          · subst h2
            simp only [if_true, and_self]
            unfold cell
            rw [hrowD, hcD]
          · simp only [if_true, h2, if_false, and_false]
            unfold cell
            rw [hrowD]
        · simp only [h1, if_false, false_and]

theorem foldVotes_ok_inv (MaxOptions : Nat) (votes : List Int) (question : Nat)
    (pv pv2 : ProcessVotes) (h : foldVotes MaxOptions votes question pv = .ok pv2) :
    ∀ q o, (q < question → cell pv2 q o = cell pv q o) ∧
      (cell pv2 q o = cell pv q o ∨ cell pv2 q o = (cell pv q o + 1) % 2 ^ 32) := by
  induction votes generalizing question pv with
  | nil =>
    simp only [foldVotes, Res.ok.injEq] at h
    subst h
    intro q o
    exact ⟨fun _ => rfl, Or.inl rfl⟩
  | cons opt rest ih =>
    unfold foldVotes at h
    by_cases hskip : opt > (MaxOptions : Int)
    · rw [if_pos hskip] at h
      intro q o
      obtain ⟨a, b⟩ := ih (question + 1) pv h q o
      exact ⟨fun hq => a (by omega), b⟩
    · rw [if_neg hskip] at h
      cases hinc : incrementCounter pv question opt with
      | err e => rw [hinc] at h; simp at h
      | panic => rw [hinc] at h; simp at h
      | ok pv1 =>
        rw [hinc] at h
        simp only at h
        have hcell := incrementCounter_ok_inv pv pv1 question opt hinc
        intro q o
        obtain ⟨a, b⟩ := ih (question + 1) pv1 h q o
        have hc := hcell q o
        constructor
        · intro hq
          rw [a (by omega), hc, if_neg (by omega)]
        · by_cases hlt : q < question + 1
          · rw [a hlt, hc]
            by_cases hcond : q = question ∧ o = opt.toNat
            · rw [if_pos hcond]; exact Or.inr rfl
            · rw [if_neg hcond]; exact Or.inl rfl
          · rw [hc, if_neg (by omega)] at b
            exact b
theorem addLiveResultsVote_ok_inv (s : Scrutinizer) (st st2 : Storage) (envelope : Vote)
    (h : addLiveResultsVote s st envelope = (.ok (), st2)) :
    ∃ vote pb pv pv2 process2,
      unmarshalVote s envelope.VotePackage = .ok vote ∧
      vote.Votes.length ≤ s.MaxQuestions ∧
      Storage.Get s st (liveKey s envelope.ProcessID) = .ok pb ∧
      s.Codec.UnmarshalBinaryBare pb = .ok pv ∧
      foldVotes s.MaxOptions vote.Votes 0 pv = .ok pv2 ∧
      s.Codec.MarshalBinaryBare pv2 = .ok process2 ∧
      st2 = fun k => if k = liveKey s envelope.ProcessID then some process2 else st k := by
  unfold addLiveResultsVote at h
  split at h
  · simp at h
  · simp at h
  · rename_i vote hvote
    split at h
    · simp at h
    · rename_i hlen
      split at h
      · simp at h
      · simp at h
      · rename_i pb hpb
        split at h
        · simp at h
        · simp at h
        · rename_i pv hpv
          split at h
          · simp at h
          · simp at h
          · rename_i pv2 hfold
            split at h
            · simp at h
            · simp at h
            · rename_i process2 hm
              unfold Storage.Put at h
              split at h
              · simp at h
              · simp only [Prod.mk.injEq, true_and] at h
                exact ⟨vote, pb, pv, pv2, process2, hvote, by omega, hpb, hpv, hfold, hm,
                  h.symm⟩

/-- C12 (counterexample): the stored 3x5 tally has the `uint32` counter `[0][0]` at
`4294967295`; `addLiveResultsVote` succeeds on a vote for option 0 of question 0, and the
tally stored afterwards has `[0][0] = 0`. -/
theorem addLiveResultsVote_counter_wraps_counterexample :
    sampleFullCounterStorage (liveKey sampleScrutinizer "p1")
      = some (sampleEncode [[4294967295, 0, 0, 0, 0], [0, 0, 0, 0, 0], [0, 0, 0, 0, 0]]) ∧
    sampleScrutinizer.Codec.UnmarshalBinaryBare
        (sampleEncode [[4294967295, 0, 0, 0, 0], [0, 0, 0, 0, 0], [0, 0, 0, 0, 0]])
      = .ok [[4294967295, 0, 0, 0, 0], [0, 0, 0, 0, 0], [0, 0, 0, 0, 0]] ∧
    fullShape 3 5 [[4294967295, 0, 0, 0, 0], [0, 0, 0, 0, 0], [0, 0, 0, 0, 0]] ∧
    countersUint32 [[4294967295, 0, 0, 0, 0], [0, 0, 0, 0, 0], [0, 0, 0, 0, 0]] ∧
    (addLiveResultsVote sampleScrutinizer sampleFullCounterStorage ⟨"p1", "0"⟩).1 = .ok () ∧
    (addLiveResultsVote sampleScrutinizer sampleFullCounterStorage ⟨"p1", "0"⟩).2
        (liveKey sampleScrutinizer "p1")
      = some (sampleEncode [[0, 0, 0, 0, 0], [0, 0, 0, 0, 0], [0, 0, 0, 0, 0]]) ∧
    sampleScrutinizer.Codec.UnmarshalBinaryBare
        (sampleEncode [[0, 0, 0, 0, 0], [0, 0, 0, 0, 0], [0, 0, 0, 0, 0]])
      = .ok [[0, 0, 0, 0, 0], [0, 0, 0, 0, 0], [0, 0, 0, 0, 0]] ∧
    cell [[0, 0, 0, 0, 0], [0, 0, 0, 0, 0], [0, 0, 0, 0, 0]] 0 0
      < cell [[4294967295, 0, 0, 0, 0], [0, 0, 0, 0, 0], [0, 0, 0, 0, 0]] 0 0 := by
  refine ⟨by decide, by decide, by decide, by decide, by decide, by decide, by decide,
    by decide⟩

/-- C12 (amended): for every stored live tally and every vote envelope on which
`addLiveResultsVote` succeeds, the storage afterwards holds under the live key the encoding
of a tally in which every counter is either unchanged or incremented by one modulo `2^32`;
hence each counter `[q][o]` whose value before the call is below `2^32 - 1` is greater than
or equal to that value afterwards. -/
theorem addLiveResultsVote_counters_monotone (s : Scrutinizer) (st st2 : Storage)
    (envelope : Vote) (pb : Bytes) (pv : ProcessVotes)
    (hget : Storage.Get s st (liveKey s envelope.ProcessID) = .ok pb)
    (hdec : s.Codec.UnmarshalBinaryBare pb = .ok pv)
    (hok : addLiveResultsVote s st envelope = (.ok (), st2)) :
    ∃ pv2 process2,
      s.Codec.MarshalBinaryBare pv2 = .ok process2 ∧
      st2 (liveKey s envelope.ProcessID) = some process2 ∧
      (∀ q o, cell pv2 q o = cell pv q o ∨ cell pv2 q o = (cell pv q o + 1) % 2 ^ 32) ∧
      (∀ q o, cell pv q o < 2 ^ 32 - 1 → cell pv q o ≤ cell pv2 q o) := by
  obtain ⟨vote, pb1, pv1, pv2, process2, _, _, hpb, hpv, hfold, hm, hst⟩ :=
    addLiveResultsVote_ok_inv s st st2 envelope hok
  rw [hget] at hpb
  simp only [Res.ok.injEq] at hpb
  subst hpb
  rw [hdec] at hpv
  simp only [Res.ok.injEq] at hpv
  subst hpv
  have hcells := foldVotes_ok_inv s.MaxOptions vote.Votes 0 pv pv2 hfold
  refine ⟨pv2, process2, hm, by rw [hst]; simp, fun q o => (hcells q o).2, ?_⟩
  intro q o hlt
  rcases (hcells q o).2 with h | h
  · rw [h]
  · rw [h, Nat.mod_eq_of_lt (by omega)]
    omega

/-- Witness for C12 (amended): one vote for option 0 of question 0 and option 2 of
question 1 on the all-zero tally of the sample scrutinizer. -/
theorem addLiveResultsVote_counters_monotone_witness :
    (addLiveResultsVote sampleScrutinizer (sampleStorage "p1") ⟨"p1", "02"⟩).2 "live_p1"
      = some (sampleEncode [[1, 0, 0, 0, 0], [0, 0, 1, 0, 0], [0, 0, 0, 0, 0]]) ∧
    ∃ pv2 process2,
      sampleScrutinizer.Codec.MarshalBinaryBare pv2 = .ok process2 ∧
      (addLiveResultsVote sampleScrutinizer (sampleStorage "p1") ⟨"p1", "02"⟩).2
        (liveKey sampleScrutinizer "p1") = some process2 ∧
      (∀ q o, cell pv2 q o = cell (emptyProcess 3 5) q o ∨
        cell pv2 q o = (cell (emptyProcess 3 5) q o + 1) % 2 ^ 32) ∧
      (∀ q o, cell (emptyProcess 3 5) q o < 2 ^ 32 - 1 →
        cell (emptyProcess 3 5) q o ≤ cell pv2 q o) :=
  ⟨by decide,
    addLiveResultsVote_counters_monotone sampleScrutinizer (sampleStorage "p1") _ ⟨"p1", "02"⟩
      (sampleEncode (emptyProcess 3 5)) (emptyProcess 3 5) (by decide) (by decide)
      (Prod.ext (by decide) rfl)⟩

theorem addLiveResultsVote_storage (s : Scrutinizer) (st : Storage) (envelope : Vote) :
    (addLiveResultsVote s st envelope).2 = st ∨
    (addLiveResultsVote s st envelope).1 = .ok () := by
  unfold addLiveResultsVote
  split
  · exact Or.inl rfl
  · exact Or.inl rfl
  · split
    · exact Or.inl rfl
    · split
      · exact Or.inl rfl
      · exact Or.inl rfl
      · split
        · exact Or.inl rfl
        · exact Or.inl rfl
        · split
          · exact Or.inl rfl
          · exact Or.inl rfl
          · split
            · exact Or.inl rfl
            · exact Or.inl rfl
            · unfold Storage.Put
              split
              · exact Or.inl rfl
              · exact Or.inr rfl

/-- C13: `addLiveResultsVote` is atomic on rejection. Whenever it returns an error the
storage is what it was before the call; this covers an undecodable vote package, more than
`MaxQuestions` answers, a missing or undecodable live tally and a failed write. A package
with more than `MaxQuestions` answers is rejected whatever the storage holds or answers,
that is before the stored tally is read. -/
theorem addLiveResultsVote_atomic_on_error (s : Scrutinizer) (st : Storage)
    (envelope : Vote) :
    (∀ x, (addLiveResultsVote s st envelope).1 = .err x →
      (addLiveResultsVote s st envelope).2 = st) ∧
    (∀ x, unmarshalVote s envelope.VotePackage = .err x →
      addLiveResultsVote s st envelope = (.err x, st)) ∧
    (∀ vote, unmarshalVote s envelope.VotePackage = .ok vote →
      vote.Votes.length > s.MaxQuestions →
      addLiveResultsVote s st envelope = (.err .tooManyQuestions, st)) ∧
    (∀ vote x, unmarshalVote s envelope.VotePackage = .ok vote →
      vote.Votes.length ≤ s.MaxQuestions →
      Storage.Get s st (liveKey s envelope.ProcessID) = .err x →
      addLiveResultsVote s st envelope = (.err (.addVoteSkipped x), st)) ∧
    (∀ vote process x, unmarshalVote s envelope.VotePackage = .ok vote →
      vote.Votes.length ≤ s.MaxQuestions →
      Storage.Get s st (liveKey s envelope.ProcessID) = .ok process →
      s.Codec.UnmarshalBinaryBare process = .err x →
      addLiveResultsVote s st envelope = (.err (.cannotUnmarshalVote x), st)) ∧
    (∀ vote process pv pv2 process2 code,
      unmarshalVote s envelope.VotePackage = .ok vote →
      vote.Votes.length ≤ s.MaxQuestions →
      Storage.Get s st (liveKey s envelope.ProcessID) = .ok process →
      s.Codec.UnmarshalBinaryBare process = .ok pv →
      foldVotes s.MaxOptions vote.Votes 0 pv = .ok pv2 →
      s.Codec.MarshalBinaryBare pv2 = .ok process2 →
      s.putFault (liveKey s envelope.ProcessID) = some code →
      addLiveResultsVote s st envelope = (.err (.io code), st)) := by
  refine ⟨?_, ?_, ?_, ?_, ?_, ?_⟩
  · intro x h
    rcases addLiveResultsVote_storage s st envelope with h2 | h2
    · exact h2
    · rw [h2] at h; simp at h
  · intro x hx
    unfold addLiveResultsVote
    rw [hx]
  · intro vote hvote hlen
    unfold addLiveResultsVote
    rw [hvote]
    simp only
    rw [if_pos hlen]
  · intro vote x hvote hlen hget
    unfold addLiveResultsVote
    rw [hvote]
    simp only
    rw [if_neg (by omega), hget]
  · intro vote process x hvote hlen hget hdec
    unfold addLiveResultsVote
    rw [hvote]
    simp only
    rw [if_neg (by omega), hget]
    simp only
    rw [hdec]
  · intro vote process pv pv2 process2 code hvote hlen hget hdec hfold hm hput
    unfold addLiveResultsVote
    rw [hvote]
    simp only
    rw [if_neg (by omega), hget]
    simp only
    rw [hdec]
    simp only
    rw [hfold]
    simp only
    rw [hm]
    simp only
    unfold Storage.Put
    rw [hput]

/-- Witness for C13: on the sample scrutinizer the undecodable package `!` and the package
`0000` of four answers (with `MaxQuestions = 3`) are rejected and the storage is returned
as it was; the second also on a storage without any live tally. -/
theorem addLiveResultsVote_atomic_on_error_witness :
    (addLiveResultsVote sampleScrutinizer (sampleStorage "p1") ⟨"p1", "!"⟩).1 = .err (.io 1) ∧
    (addLiveResultsVote sampleScrutinizer (sampleStorage "p1") ⟨"p1", "!"⟩).2
      = sampleStorage "p1" ∧
    addLiveResultsVote sampleScrutinizer (sampleStorage "p1") ⟨"p1", "0000"⟩
      = (.err .tooManyQuestions, sampleStorage "p1") ∧
    addLiveResultsVote sampleScrutinizer (fun _ => none) ⟨"p1", "0000"⟩
      = (.err .tooManyQuestions, fun _ => none) ∧
    addLiveResultsVote sampleScrutinizer (fun _ => none) ⟨"p1", "0"⟩
      = (.err (.addVoteSkipped .noKey), fun _ => none) :=
  ⟨by decide,
    (addLiveResultsVote_atomic_on_error sampleScrutinizer (sampleStorage "p1")
      ⟨"p1", "!"⟩).1 (.io 1) (by decide),
    (addLiveResultsVote_atomic_on_error sampleScrutinizer (sampleStorage "p1")
      ⟨"p1", "0000"⟩).2.2.1 ⟨[0, 0, 0, 0]⟩ (by decide) (by decide),
    (addLiveResultsVote_atomic_on_error sampleScrutinizer (fun _ => none)
      ⟨"p1", "0000"⟩).2.2.1 ⟨[0, 0, 0, 0]⟩ (by decide) (by decide),
    (addLiveResultsVote_atomic_on_error sampleScrutinizer (fun _ => none)
      ⟨"p1", "0"⟩).2.2.2.1 ⟨[0]⟩ .noKey (by decide) (by decide) (by decide)⟩

end Vocdoni
